import Mathlib

/-
Verification of the networking core of bevy_royal (src/lib.rs,
src/bin/server.rs, src/bin/client.rs) through a shallow embedding.

Conventions of the embedding:
  - machine bytes are naturals (a real byte is < 256; hypotheses state this
    where a claim needs it);
  - u128 network identities, usize sequence numbers and f32 bit patterns are
    naturals with explicit range side conditions;
  - the f32 fields of wire packages are modelled by their 4-byte bit
    patterns, because bincode serializes an f32 as its raw little-endian
    bytes and no arithmetic happens on the wire path;
  - time and the floating-point accumulators of the schedulers are modelled
    over the rationals;
  - Rust code that can panic is embedded as a function into Option, with
    none for the panic.
-/

namespace BevyRoyal

/-! ## Byte-level primitives of the bincode standard configuration

bincode's standard configuration writes integers little-endian with the
variable-length encoding: a value below 251 is a single byte; otherwise an
escape byte 251/252/253/254 is followed by the value as a little-endian
u16/u32/u64/u128.  An f32 is written as its 4 raw little-endian bytes. -/

/-- Little-endian byte list of `v`, exactly `n` bytes (truncating above 256^n). -/
def leBytes : Nat → Nat → List Nat
  | 0, _ => []
  | n + 1, v => v % 256 :: leBytes n (v / 256)

/-- Read `n` little-endian bytes from the front of `bs`, returning the value
and the remaining bytes; none when fewer than `n` bytes remain. -/
def readLE : Nat → List Nat → Option (Nat × List Nat)
  | 0, bs => some (0, bs)
  | _ + 1, [] => none
  | n + 1, b :: bs => (readLE n bs).map (fun p => (b + 256 * p.1, p.2))

/-- Variable-length integer writer of bincode's standard configuration.
The escape level depends only on the value. -/
def uwrite (v : Nat) : List Nat :=
  if v < 251 then [v]
  else if v < 65536 then 251 :: leBytes 2 v
  else if v < 4294967296 then 252 :: leBytes 4 v
  else if v < 18446744073709551616 then 253 :: leBytes 8 v
  else 254 :: leBytes 16 v

/-- Variable-length reader for a u32-typed field (enum discriminants):
escapes above the u32 width are a decode error. -/
def ureadU32 : List Nat → Option (Nat × List Nat)
  | [] => none
  | b :: bs =>
    if b < 251 then some (b, bs)
    else if b = 251 then readLE 2 bs
    else if b = 252 then readLE 4 bs
    else none

/-- Variable-length reader for a u64-typed field (usize, Vec lengths). -/
def ureadU64 : List Nat → Option (Nat × List Nat)
  | [] => none
  | b :: bs =>
    if b < 251 then some (b, bs)
    else if b = 251 then readLE 2 bs
    else if b = 252 then readLE 4 bs
    else if b = 253 then readLE 8 bs
    else none

/-- Variable-length reader for a u128-typed field (network identities). -/
def ureadU128 : List Nat → Option (Nat × List Nat)
  | [] => none
  | b :: bs =>
    if b < 251 then some (b, bs)
    else if b = 251 then readLE 2 bs
    else if b = 252 then readLE 4 bs
    else if b = 253 then readLE 8 bs
    else if b = 254 then readLE 16 bs
    else none

/-! ## Wire data model (src/lib.rs)

The structures and enums below mirror the serialized types of src/lib.rs
field-for-field and variant-for-variant, in declaration order (bincode's
derived codec walks fields and variants in that order).  f32 fields are
carried as their 32-bit patterns; u128 identities and usize tags as
naturals. -/

structure MyVec3 where
  x : Nat
  y : Nat
  z : Nat
  deriving DecidableEq

structure MyQuat where
  x : Nat
  y : Nat
  z : Nat
  w : Nat
  deriving DecidableEq

structure MyVec2 where
  x : Nat
  y : Nat
  deriving DecidableEq

structure PositionPackage where
  net_id : Nat
  position : MyVec3
  rotation : MyQuat
  deriving DecidableEq

structure PlayerLookPackage where
  net_id : Nat
  rotation : MyQuat
  deriving DecidableEq

structure VelocityPackage where
  net_id : Nat
  velocity : MyVec3
  deriving DecidableEq

structure HealthPackage where
  net_id : Nat
  health : Nat
  deriving DecidableEq

inductive NetComponent where
  | LinearVelocity (v : MyVec3)
  | Transform (translation : MyVec3) (rotation : MyQuat) (scale : MyVec3)
  | Sphere (radius : Nat)
  | SphereCollider (radius : Nat)
  | Capsule (radius height : Nat)
  | CapsuleCollider (radius height : Nat)
  | ColorMaterial (r g b : Nat)
  | Health (v : Nat)
  | Player
  | Enemy
  | Radius (v : Nat)
  | SpotLight (player_radius : Nat)
  deriving DecidableEq

structure EntityPackage where
  net_id : Nat
  components : List NetComponent
  deriving DecidableEq

inductive ServerMessageInner where
  | Ok (net_id : Nat)
  | SpawnEntities (packages : List EntityPackage)
  | UpdateEntities (packages : List EntityPackage)
  | UpdatePositions (packages : List PositionPackage)
  | UpdatePlayerLooks (packages : List PlayerLookPackage)
  | UpdateVelocities (packages : List VelocityPackage)
  | UpdateHealths (packages : List HealthPackage)
  | Confirm (id : Nat)
  deriving DecidableEq

structure ServerMessage where
  reliable : Nat
  message : ServerMessageInner
  deriving DecidableEq

inductive ClientMessageInner where
  | Login
  | SetVelocity (net_id : Nat) (v : MyVec2)
  | Rotation (net_id : Nat) (q : MyQuat)
  | Confirm (id : Nat)
  | Jump (net_id : Nat)
  | Shoot (net_id : Nat) (direction : MyVec3)
  deriving DecidableEq

structure ClientMessage where
  reliable : Nat
  message : ClientMessageInner
  deriving DecidableEq

/-! ## Message constructors (impl blocks of src/lib.rs) -/

def ServerMessage.ok (reliable : Nat) (net_id : Nat) : ServerMessage :=
  ⟨reliable, .Ok net_id⟩

def ServerMessage.confirm (id : Nat) : ServerMessage :=
  ⟨1, .Confirm id⟩

def ServerMessage.update_healths (packages : List HealthPackage) : ServerMessage :=
  ⟨1, .UpdateHealths packages⟩

def ServerMessage.spawn_entities (reliable : Nat) (packages : List EntityPackage) : ServerMessage :=
  ⟨reliable, .SpawnEntities packages⟩

def ServerMessage.update_entities (reliable : Nat) (packages : List EntityPackage) : ServerMessage :=
  ⟨reliable, .UpdateEntities packages⟩

def ServerMessage.update_positions (packages : List PositionPackage) : ServerMessage :=
  ⟨0, .UpdatePositions packages⟩

def ServerMessage.update_velocities (packages : List VelocityPackage) : ServerMessage :=
  ⟨0, .UpdateVelocities packages⟩

def ServerMessage.update_player_looks (packages : List PlayerLookPackage) : ServerMessage :=
  ⟨0, .UpdatePlayerLooks packages⟩

def ClientMessage.login : ClientMessage :=
  ⟨1, .Login⟩

def ClientMessage.setvelocity (me : Nat) (velocity : MyVec2) : ClientMessage :=
  ⟨0, .SetVelocity me velocity⟩

def ClientMessage.jump (me : Nat) : ClientMessage :=
  ⟨1, .Jump me⟩

def ClientMessage.shoot (me : Nat) (direction : MyVec3) : ClientMessage :=
  ⟨1, .Shoot me direction⟩

def ClientMessage.rotation (me : Nat) (q : MyQuat) : ClientMessage :=
  ⟨0, .Rotation me q⟩

def ClientMessage.confirm (id : Nat) : ClientMessage :=
  ⟨0, .Confirm id⟩

/-! ## Encoders (bincode standard configuration, derive order) -/

def encF32 (b : Nat) : List Nat := leBytes 4 b

def encMyVec3 (v : MyVec3) : List Nat := encF32 v.x ++ encF32 v.y ++ encF32 v.z

def encMyQuat (q : MyQuat) : List Nat := encF32 q.x ++ encF32 q.y ++ encF32 q.z ++ encF32 q.w

def encMyVec2 (v : MyVec2) : List Nat := encF32 v.x ++ encF32 v.y

def encListWith (enc : α → List Nat) (l : List α) : List Nat :=
  uwrite l.length ++ (l.map enc).flatten

def encPositionPackage (p : PositionPackage) : List Nat :=
  uwrite p.net_id ++ encMyVec3 p.position ++ encMyQuat p.rotation

def encPlayerLookPackage (p : PlayerLookPackage) : List Nat :=
  uwrite p.net_id ++ encMyQuat p.rotation

def encVelocityPackage (p : VelocityPackage) : List Nat :=
  uwrite p.net_id ++ encMyVec3 p.velocity

def encHealthPackage (p : HealthPackage) : List Nat :=
  uwrite p.net_id ++ encF32 p.health

def encNetComponent : NetComponent → List Nat
  | .LinearVelocity v => uwrite 0 ++ encMyVec3 v
  | .Transform t r s => uwrite 1 ++ encMyVec3 t ++ encMyQuat r ++ encMyVec3 s
  | .Sphere r => uwrite 2 ++ encF32 r
  | .SphereCollider r => uwrite 3 ++ encF32 r
  | .Capsule r h => uwrite 4 ++ encF32 r ++ encF32 h
  | .CapsuleCollider r h => uwrite 5 ++ encF32 r ++ encF32 h
  | .ColorMaterial r g b => uwrite 6 ++ encF32 r ++ encF32 g ++ encF32 b
  | .Health v => uwrite 7 ++ encF32 v
  | .Player => uwrite 8
  | .Enemy => uwrite 9
  | .Radius v => uwrite 10 ++ encF32 v
  | .SpotLight v => uwrite 11 ++ encF32 v

def encEntityPackage (p : EntityPackage) : List Nat :=
  uwrite p.net_id ++ encListWith encNetComponent p.components

def encServerInner : ServerMessageInner → List Nat
  | .Ok net_id => uwrite 0 ++ uwrite net_id
  | .SpawnEntities ps => uwrite 1 ++ encListWith encEntityPackage ps
  | .UpdateEntities ps => uwrite 2 ++ encListWith encEntityPackage ps
  | .UpdatePositions ps => uwrite 3 ++ encListWith encPositionPackage ps
  | .UpdatePlayerLooks ps => uwrite 4 ++ encListWith encPlayerLookPackage ps
  | .UpdateVelocities ps => uwrite 5 ++ encListWith encVelocityPackage ps
  | .UpdateHealths ps => uwrite 6 ++ encListWith encHealthPackage ps
  | .Confirm id => uwrite 7 ++ uwrite id

def serverBytes (m : ServerMessage) : List Nat :=
  uwrite m.reliable ++ encServerInner m.message

def encClientInner : ClientMessageInner → List Nat
  | .Login => uwrite 0
  | .SetVelocity net_id v => uwrite 1 ++ uwrite net_id ++ encMyVec2 v
  | .Rotation net_id q => uwrite 2 ++ uwrite net_id ++ encMyQuat q
  | .Confirm id => uwrite 3 ++ uwrite id
  | .Jump net_id => uwrite 4 ++ uwrite net_id
  | .Shoot net_id d => uwrite 5 ++ uwrite net_id ++ encMyVec3 d

def clientBytes (m : ClientMessage) : List Nat :=
  uwrite m.reliable ++ encClientInner m.message

def padTo1000 (bs : List Nat) : List Nat := bs ++ List.replicate (1000 - bs.length) 0

/-- Model of `ServerMessage::encode`: write into the zero-initialized
1000-byte buffer, none for the panic of the `unwrap` when the message does
not fit. -/
def ServerMessage.encode (m : ServerMessage) : Option (List Nat) :=
  if (serverBytes m).length ≤ 1000 then some (padTo1000 (serverBytes m)) else none

/-- Model of `ClientMessage::encode` (same scheme). -/
def ClientMessage.encode (m : ClientMessage) : Option (List Nat) :=
  if (clientBytes m).length ≤ 1000 then some (padTo1000 (clientBytes m)) else none

/-! ## Parsers -/

def parseF32 (bs : List Nat) : Option (Nat × List Nat) := readLE 4 bs

def parseMyVec3 (bs : List Nat) : Option (MyVec3 × List Nat) :=
  (parseF32 bs).bind fun (x, bs) =>
  (parseF32 bs).bind fun (y, bs) =>
  (parseF32 bs).map fun (z, bs) => (⟨x, y, z⟩, bs)

def parseMyQuat (bs : List Nat) : Option (MyQuat × List Nat) :=
  (parseF32 bs).bind fun (x, bs) =>
  (parseF32 bs).bind fun (y, bs) =>
  (parseF32 bs).bind fun (z, bs) =>
  (parseF32 bs).map fun (w, bs) => (⟨x, y, z, w⟩, bs)

def parseMyVec2 (bs : List Nat) : Option (MyVec2 × List Nat) :=
  (parseF32 bs).bind fun (x, bs) =>
  (parseF32 bs).map fun (y, bs) => (⟨x, y⟩, bs)

def parseN (p : List Nat → Option (α × List Nat)) : Nat → List Nat → Option (List α × List Nat)
  | 0, bs => some ([], bs)
  | n + 1, bs =>
      (p bs).bind fun (a, bs) =>
      (parseN p n bs).map fun (l, r) => (a :: l, r)

def parseListWith (p : List Nat → Option (α × List Nat)) (bs : List Nat) :
    Option (List α × List Nat) :=
  (ureadU64 bs).bind fun (n, bs) => parseN p n bs

def parsePositionPackage (bs : List Nat) : Option (PositionPackage × List Nat) :=
  (ureadU128 bs).bind fun (i, bs) =>
  (parseMyVec3 bs).bind fun (pos, bs) =>
  (parseMyQuat bs).map fun (rot, bs) => (⟨i, pos, rot⟩, bs)

def parsePlayerLookPackage (bs : List Nat) : Option (PlayerLookPackage × List Nat) :=
  (ureadU128 bs).bind fun (i, bs) =>
  (parseMyQuat bs).map fun (rot, bs) => (⟨i, rot⟩, bs)

def parseVelocityPackage (bs : List Nat) : Option (VelocityPackage × List Nat) :=
  (ureadU128 bs).bind fun (i, bs) =>
  (parseMyVec3 bs).map fun (v, bs) => (⟨i, v⟩, bs)

def parseHealthPackage (bs : List Nat) : Option (HealthPackage × List Nat) :=
  (ureadU128 bs).bind fun (i, bs) =>
  (parseF32 bs).map fun (h, bs) => (⟨i, h⟩, bs)

def parseNetComponent (bs : List Nat) : Option (NetComponent × List Nat) :=
  (ureadU32 bs).bind fun (tag, bs) =>
  match tag with
  | 0 => (parseMyVec3 bs).map fun (v, bs) => (.LinearVelocity v, bs)
  | 1 =>
      (parseMyVec3 bs).bind fun (t, bs) =>
      (parseMyQuat bs).bind fun (r, bs) =>
      (parseMyVec3 bs).map fun (s, bs) => (.Transform t r s, bs)
  | 2 => (parseF32 bs).map fun (r, bs) => (.Sphere r, bs)
  | 3 => (parseF32 bs).map fun (r, bs) => (.SphereCollider r, bs)
  | 4 =>
      (parseF32 bs).bind fun (r, bs) =>
      (parseF32 bs).map fun (h, bs) => (.Capsule r h, bs)
  | 5 =>
      (parseF32 bs).bind fun (r, bs) =>
      (parseF32 bs).map fun (h, bs) => (.CapsuleCollider r h, bs)
  | 6 =>
      (parseF32 bs).bind fun (r, bs) =>
      (parseF32 bs).bind fun (g, bs) =>
      (parseF32 bs).map fun (b, bs) => (.ColorMaterial r g b, bs)
  | 7 => (parseF32 bs).map fun (v, bs) => (.Health v, bs)
  | 8 => some (.Player, bs)
  | 9 => some (.Enemy, bs)
  | 10 => (parseF32 bs).map fun (v, bs) => (.Radius v, bs)
  | 11 => (parseF32 bs).map fun (v, bs) => (.SpotLight v, bs)
  | _ => none

def parseEntityPackage (bs : List Nat) : Option (EntityPackage × List Nat) :=
  (ureadU128 bs).bind fun (i, bs) =>
  (parseListWith parseNetComponent bs).map fun (cs, bs) => (⟨i, cs⟩, bs)

def parseServerInner (bs : List Nat) : Option (ServerMessageInner × List Nat) :=
  (ureadU32 bs).bind fun (tag, bs) =>
  match tag with
  | 0 => (ureadU128 bs).map fun (i, bs) => (.Ok i, bs)
  | 1 => (parseListWith parseEntityPackage bs).map fun (ps, bs) => (.SpawnEntities ps, bs)
  | 2 => (parseListWith parseEntityPackage bs).map fun (ps, bs) => (.UpdateEntities ps, bs)
  | 3 => (parseListWith parsePositionPackage bs).map fun (ps, bs) => (.UpdatePositions ps, bs)
  | 4 => (parseListWith parsePlayerLookPackage bs).map fun (ps, bs) => (.UpdatePlayerLooks ps, bs)
  | 5 => (parseListWith parseVelocityPackage bs).map fun (ps, bs) => (.UpdateVelocities ps, bs)
  | 6 => (parseListWith parseHealthPackage bs).map fun (ps, bs) => (.UpdateHealths ps, bs)
  | 7 => (ureadU64 bs).map fun (i, bs) => (.Confirm i, bs)
  | _ => none

def parseServerMessage (bs : List Nat) : Option (ServerMessage × List Nat) :=
  (ureadU64 bs).bind fun (rel, bs) =>
  (parseServerInner bs).map fun (inner, bs) => (⟨rel, inner⟩, bs)

def parseClientInner (bs : List Nat) : Option (ClientMessageInner × List Nat) :=
  (ureadU32 bs).bind fun (tag, bs) =>
  match tag with
  | 0 => some (.Login, bs)
  | 1 =>
      (ureadU128 bs).bind fun (i, bs) =>
      (parseMyVec2 bs).map fun (v, bs) => (.SetVelocity i v, bs)
  | 2 =>
      (ureadU128 bs).bind fun (i, bs) =>
      (parseMyQuat bs).map fun (q, bs) => (.Rotation i q, bs)
  | 3 => (ureadU64 bs).map fun (i, bs) => (.Confirm i, bs)
  | 4 => (ureadU128 bs).map fun (i, bs) => (.Jump i, bs)
  | 5 =>
      (ureadU128 bs).bind fun (i, bs) =>
      (parseMyVec3 bs).map fun (d, bs) => (.Shoot i d, bs)
  | _ => none

def parseClientMessage (bs : List Nat) : Option (ClientMessage × List Nat) :=
  (ureadU64 bs).bind fun (rel, bs) =>
  (parseClientInner bs).map fun (inner, bs) => (⟨rel, inner⟩, bs)

/-- Model of `ServerMessage::decode`: decode a prefix of the slice, none on
any malformed or truncated input (the `Err` branch of bincode); trailing
bytes are ignored as `decode_from_slice` does. -/
def ServerMessage.decode (bs : List Nat) : Option ServerMessage :=
  (parseServerMessage bs).map Prod.fst

/-- Model of `ClientMessage::decode` (same scheme). -/
def ClientMessage.decode (bs : List Nat) : Option ClientMessage :=
  (parseClientMessage bs).map Prod.fst

/-! ## Well-formedness: the values representable by the Rust types

These bounds are guaranteed by the Rust types themselves (f32 bit patterns
are 32 bits, identities are u128, usize is 64 bits, a Vec length is a
usize); the Nat embedding states them explicitly. -/

def wfF32 (b : Nat) : Bool := b < 4294967296
def wfU64 (v : Nat) : Bool := v < 18446744073709551616
def wfU128 (v : Nat) : Bool := v < 340282366920938463463374607431768211456

def wfMyVec3 (v : MyVec3) : Bool := wfF32 v.x && wfF32 v.y && wfF32 v.z
def wfMyQuat (q : MyQuat) : Bool := wfF32 q.x && wfF32 q.y && wfF32 q.z && wfF32 q.w
def wfMyVec2 (v : MyVec2) : Bool := wfF32 v.x && wfF32 v.y

def wfListWith (wf : α → Bool) (l : List α) : Bool :=
  decide (l.length < 18446744073709551616) && l.all wf

def wfPositionPackage (p : PositionPackage) : Bool :=
  wfU128 p.net_id && wfMyVec3 p.position && wfMyQuat p.rotation
def wfPlayerLookPackage (p : PlayerLookPackage) : Bool :=
  wfU128 p.net_id && wfMyQuat p.rotation
def wfVelocityPackage (p : VelocityPackage) : Bool :=
  wfU128 p.net_id && wfMyVec3 p.velocity
def wfHealthPackage (p : HealthPackage) : Bool :=
  wfU128 p.net_id && wfF32 p.health

def wfNetComponent : NetComponent → Bool
  | .LinearVelocity v => wfMyVec3 v
  | .Transform t r s => wfMyVec3 t && wfMyQuat r && wfMyVec3 s
  | .Sphere r => wfF32 r
  | .SphereCollider r => wfF32 r
  | .Capsule r h => wfF32 r && wfF32 h
  | .CapsuleCollider r h => wfF32 r && wfF32 h
  | .ColorMaterial r g b => wfF32 r && wfF32 g && wfF32 b
  | .Health v => wfF32 v
  | .Player => true
  | .Enemy => true
  | .Radius v => wfF32 v
  | .SpotLight v => wfF32 v

def wfEntityPackage (p : EntityPackage) : Bool :=
  wfU128 p.net_id && wfListWith wfNetComponent p.components

def wfServerInner : ServerMessageInner → Bool
  | .Ok i => wfU128 i
  | .SpawnEntities ps => wfListWith wfEntityPackage ps
  | .UpdateEntities ps => wfListWith wfEntityPackage ps
  | .UpdatePositions ps => wfListWith wfPositionPackage ps
  | .UpdatePlayerLooks ps => wfListWith wfPlayerLookPackage ps
  | .UpdateVelocities ps => wfListWith wfVelocityPackage ps
  | .UpdateHealths ps => wfListWith wfHealthPackage ps
  | .Confirm i => wfU64 i

def wfServerMessage (m : ServerMessage) : Bool :=
  wfU64 m.reliable && wfServerInner m.message

def wfClientInner : ClientMessageInner → Bool
  | .Login => true
  | .SetVelocity i v => wfU128 i && wfMyVec2 v
  | .Rotation i q => wfU128 i && wfMyQuat q
  | .Confirm i => wfU64 i
  | .Jump i => wfU128 i
  | .Shoot i d => wfU128 i && wfMyVec3 d

def wfClientMessage (m : ClientMessage) : Bool :=
  wfU64 m.reliable && wfClientInner m.message

/-! ## Association lists: the model of std `HashMap` state

Keys are naturals (entity ids, network ids, sequence numbers, addresses).
`alInsert` has the replace-or-add semantics of `HashMap::insert`,
`alRemove` the semantics of `HashMap::remove`, `alGet` of `get`. -/

def alGet : List (Nat × β) → Nat → Option β
  | [], _ => none
  | p :: rest, k => if p.1 = k then some p.2 else alGet rest k

def alRemove : List (Nat × β) → Nat → List (Nat × β)
  | [], _ => []
  | p :: rest, k => if p.1 = k then alRemove rest k else p :: alRemove rest k

def alInsert (l : List (Nat × β)) (k : Nat) (v : β) : List (Nat × β) :=
  alRemove l k ++ [(k, v)]

/-! ## Reliability layer: the network-thread loop of server.rs and client.rs

One loop iteration is: (1) resend every pending reliable package older than
300 ms and refresh its timestamp; (2) drain the outgoing channel, assigning
the next sequence number to each message requested reliable, storing its
encoded bytes in the pending table, and transmitting; (3) drain the socket,
removing the pending entry named by each received `Confirm`.  The loop is
generic in the message payload `α`, the encoded-buffer type `B` and the
address type `A` (the client's thread has no addresses; instantiate `A` with
a singleton). -/

structure NetMsg (α : Type) where
  reliable : Nat
  message : α

structure ReliablePackage (B A : Type) where
  bytes : B
  addr : A
  lastSend : ℚ

structure NetThread (B A : Type) where
  reliableCounter : Nat
  reliablePackages : List (Nat × ReliablePackage B A)

/-- Resend pass: every pending entry strictly older than 300 ms is sent
again byte-for-byte and its timestamp set to `now`.  The first output lists
the retransmissions as (sequence, bytes, address). -/
def resendPhase (now : ℚ) (st : NetThread B A) :
    NetThread B A × List (Nat × B × A) :=
  ({ st with
      reliablePackages := st.reliablePackages.map fun p =>
        if (300 : ℚ) < now - p.2.lastSend then (p.1, { p.2 with lastSend := now }) else p },
   (st.reliablePackages.filter fun p => decide ((300 : ℚ) < now - p.2.lastSend)).map
      fun p => (p.1, p.2.bytes, p.2.addr))

/-- Sending one outgoing package: when `reliable > 0` the counter value
replaces the caller's placeholder, the encoded bytes of the rewritten
message are stored under that sequence number with timestamp `now`, and the
counter advances; the same bytes are transmitted either way. -/
def sendOne (encode : NetMsg α → B) (now : ℚ) (st : NetThread B A)
    (addr : A) (m : NetMsg α) : NetThread B A × B :=
  let m1 := if 0 < m.reliable then { m with reliable := st.reliableCounter } else m
  let bytes := encode m1
  if 0 < m1.reliable then
    ({ reliableCounter := st.reliableCounter + 1,
       reliablePackages :=
         alInsert st.reliablePackages st.reliableCounter ⟨bytes, addr, now⟩ }, bytes)
  else (st, bytes)

def outgoingPhase (encode : NetMsg α → B) (now : ℚ) (st : NetThread B A) :
    List (A × NetMsg α) → NetThread B A × List (B × A)
  | [] => (st, [])
  | (addr, m) :: rest =>
      let s1 := sendOne encode now st addr m
      let s2 := outgoingPhase encode now s1.1 rest
      (s2.1, (s1.2, addr) :: s2.2)

/-- A decoded inbound datagram as the reliability layer sees it: either a
`Confirm` carrying a sequence number, or anything else. -/
inductive InboundMsg where
  | confirm (s : Nat)
  | other

def receivePhase (st : NetThread B A) : List InboundMsg → NetThread B A
  | [] => st
  | .confirm s :: rest =>
      receivePhase { st with reliablePackages := alRemove st.reliablePackages s } rest
  | .other :: rest => receivePhase st rest

structure NetIterIn (α A : Type) where
  now : ℚ
  outgoing : List (A × NetMsg α)
  inbound : List InboundMsg

/-- One iteration of the network-thread loop, returning the new state, the
retransmissions of the resend pass and the fresh transmissions. -/
def netIter (encode : NetMsg α → B) (inp : NetIterIn α A) (st : NetThread B A) :
    NetThread B A × List (Nat × B × A) × List (B × A) :=
  let r := resendPhase inp.now st
  let o := outgoingPhase encode inp.now r.1 inp.outgoing
  (receivePhase o.1 inp.inbound, r.2, o.2)

def netRun (encode : NetMsg α → B) : List (NetIterIn α A) → NetThread B A → NetThread B A
  | [], st => st
  | inp :: rest, st => netRun encode rest (netIter encode inp st).1

/-- Per-iteration resend outputs of a run. -/
def netResendTrace (encode : NetMsg α → B) :
    List (NetIterIn α A) → NetThread B A → List (List (Nat × B × A))
  | [], _ => []
  | inp :: rest, st =>
      (netIter encode inp st).2.1 :: netResendTrace encode rest (netIter encode inp st).1

/-- Invariant of the pending table: every stored sequence number was
assigned by the counter, hence is below it. -/
def KeysBelowCounter (st : NetThread B A) : Prop :=
  ∀ p ∈ st.reliablePackages, p.1 < st.reliableCounter

/-- The sequence number `s` has no entry in the pending table. -/
def NotPending (s : Nat) (st : NetThread B A) : Prop :=
  ∀ p ∈ st.reliablePackages, p.1 ≠ s

/-! ## Jitter buffer: the delay pool of the network-thread loop

Every decoded inbound message is pushed with accumulator 0; on each
iteration every held entry's accumulator grows by the frame delta and the
entries that reached the threshold are forwarded, in pool order, to the
simulation channel.  The threshold is 0.1 s in server.rs and 0.2 s in
client.rs. -/

def serverDelayThreshold : ℚ := 1 / 10

def clientDelayThreshold : ℚ := 2 / 10

/-- One loop iteration of the delay pool: push the new arrivals (as the
socket pass does, before the drain), add the frame delta to every
accumulator, then split off the entries whose accumulator reached the
threshold.  Returns (kept pool, released entries in pool order). -/
def poolStep (θ δ : ℚ) (pool : List (ℚ × M)) (arrivals : List M) :
    List (ℚ × M) × List (ℚ × M) :=
  let p1 := (pool ++ arrivals.map fun m => ((0 : ℚ), m)).map fun e => (e.1 + δ, e.2)
  (p1.filter fun e => decide (e.1 < θ), p1.filter fun e => decide (θ ≤ e.1))

structure PoolIterIn (M : Type) where
  δ : ℚ
  arrivals : List M

def poolRun (θ : ℚ) : List (PoolIterIn M) → List (ℚ × M) → List (ℚ × M)
  | [], pool => pool
  | inp :: rest, pool => poolRun θ rest (poolStep θ inp.δ pool inp.arrivals).1

/-- Per-iteration released entries of a run of the delay pool. -/
def poolReleasedTrace (θ : ℚ) : List (PoolIterIn M) → List (ℚ × M) → List (List (ℚ × M))
  | [], _ => []
  | inp :: rest, pool =>
      (poolStep θ inp.δ pool inp.arrivals).2 ::
        poolReleasedTrace θ rest (poolStep θ inp.δ pool inp.arrivals).1

def poolArrivals (ins : List (PoolIterIn M)) : List M :=
  (ins.map PoolIterIn.arrivals).flatten

/-! ## Server simulation state: receive_messages of server.rs

The state carries the three resource maps, the id counter, the set of
entities matching the player query (`With<Player>` plus `LinearVelocity`)
with their velocities, the entities matching the player-look query, and a
fresh-entity counter standing for `commands.spawn`.  Addresses are
naturals. -/

structure LinearVelocity where
  x : ℚ
  y : ℚ
  z : ℚ
  deriving DecidableEq

structure ServerSim where
  idCounter : Nat
  netIdMap : List (Nat × Nat)
  entityMap : List (Nat × Nat)
  clientPlayerMap : List (Nat × Nat)
  players : List (Nat × LinearVelocity)
  playerLooks : List (Nat × MyQuat)
  nextEntity : Nat
  deriving DecidableEq

def initServerSim : ServerSim :=
  { idCounter := 0, netIdMap := [], entityMap := [], clientPlayerMap := [],
    players := [], playerLooks := [], nextEntity := 0 }

/-- Login arm: a second login from a bound address is denied; otherwise a
player entity is spawned, the address is bound, both identity maps receive
the fresh (entity, id) pair and the id counter advances. -/
def handleLogin (addr : Nat) (st : ServerSim) : ServerSim :=
  match alGet st.clientPlayerMap addr with
  | some _ => st
  | none =>
      let id := st.nextEntity
      { idCounter := st.idCounter + 1,
        netIdMap := alInsert st.netIdMap id st.idCounter,
        entityMap := alInsert st.entityMap st.idCounter id,
        clientPlayerMap := alInsert st.clientPlayerMap addr id,
        players := alInsert st.players id ⟨10, -10, 0⟩,
        playerLooks := alInsert st.playerLooks id ⟨0, 0, 0, 0⟩,
        nextEntity := st.nextEntity + 1 }

/-- SetVelocity arm: when the id resolves to an entity of the player query,
only the x and y velocity components are overwritten; otherwise the stale
id is removed from `entityMap` (and removing an unknown id is a no-op). -/
def handleSetVelocity (player_net_id : Nat) (velocity : ℚ × ℚ) (st : ServerSim) : ServerSim :=
  match alGet st.entityMap player_net_id with
  | some player_entity =>
      match alGet st.players player_entity with
      | some vel =>
          { st with players :=
              alInsert st.players player_entity ⟨velocity.1, velocity.2, vel.z⟩ }
      | none => { st with entityMap := alRemove st.entityMap player_net_id }
  | none => { st with entityMap := alRemove st.entityMap player_net_id }

/-- Jump arm: sets only the z velocity component to 10, same stale-id
cleanup as SetVelocity. -/
def handleJump (player_net_id : Nat) (st : ServerSim) : ServerSim :=
  match alGet st.entityMap player_net_id with
  | some player_entity =>
      match alGet st.players player_entity with
      | some vel =>
          { st with players := alInsert st.players player_entity ⟨vel.x, vel.y, 10⟩ }
      | none => { st with entityMap := alRemove st.entityMap player_net_id }
  | none => { st with entityMap := alRemove st.entityMap player_net_id }

/-- Rotation arm: stores the look rotation when the id resolves to an
entity of the player-look query, same stale-id cleanup. -/
def handleRotation (player_net_id : Nat) (q : MyQuat) (st : ServerSim) : ServerSim :=
  match alGet st.entityMap player_net_id with
  | some player_entity =>
      match alGet st.playerLooks player_entity with
      | some _ => { st with playerLooks := alInsert st.playerLooks player_entity q }
      | none => { st with entityMap := alRemove st.entityMap player_net_id }
  | none => { st with entityMap := alRemove st.entityMap player_net_id }

/-- Shoot arm: spawns a ray entity when the shooter resolves through the
player query, same stale-id cleanup.  Only the entity allocation matters to
the maps. -/
def handleShoot (player_net_id : Nat) (st : ServerSim) : ServerSim :=
  match alGet st.entityMap player_net_id with
  | some player_entity =>
      match alGet st.players player_entity with
      | some _ => { st with nextEntity := st.nextEntity + 1 }
      | none => { st with entityMap := alRemove st.entityMap player_net_id }
  | none => { st with entityMap := alRemove st.entityMap player_net_id }

inductive ServerOp where
  | login (addr : Nat)
  | setVelocity (net_id : Nat) (v : ℚ × ℚ)
  | jump (net_id : Nat)
  | rotationOp (net_id : Nat) (q : MyQuat)
  | shoot (net_id : Nat)
  | confirmOp

def applyServerOp : ServerOp → ServerSim → ServerSim
  | .login addr, st => handleLogin addr st
  | .setVelocity i v, st => handleSetVelocity i v st
  | .jump i, st => handleJump i st
  | .rotationOp i q, st => handleRotation i q st
  | .shoot i, st => handleShoot i st
  | .confirmOp, st => st

def runServerOps : List ServerOp → ServerSim → ServerSim
  | [], st => st
  | op :: rest, st => runServerOps rest (applyServerOp op st)

/-- Startup system spawn_enemies: each enemy entity enters both identity
maps (but not the player query) and both counters advance. -/
def spawnEnemy (st : ServerSim) : ServerSim :=
  { st with
      netIdMap := alInsert st.netIdMap st.nextEntity st.idCounter,
      entityMap := alInsert st.entityMap st.idCounter st.nextEntity,
      idCounter := st.idCounter + 1,
      nextEntity := st.nextEntity + 1 }

def spawnEnemies : Nat → ServerSim → ServerSim
  | 0, st => st
  | n + 1, st => spawnEnemies n (spawnEnemy st)

/-- Every NetworkIdentity → Entity entry has the matching Entity →
NetworkIdentity entry. -/
def RevSubFwd (st : ServerSim) : Prop :=
  ∀ nid e, alGet st.entityMap nid = some e → alGet st.netIdMap e = some nid

/-- Full symmetry of the two identity maps, as the claim states it. -/
def MapsSymmetric (st : ServerSim) : Prop :=
  RevSubFwd st ∧ ∀ e nid, alGet st.netIdMap e = some nid → alGet st.entityMap nid = some e

/-- Spawned entities are below the fresh-entity counter. -/
def EntitiesFresh (st : ServerSim) : Prop :=
  (∀ p ∈ st.netIdMap, p.1 < st.nextEntity) ∧ (∀ p ∈ st.entityMap, p.2 < st.nextEntity)

def SimInv (st : ServerSim) : Prop := RevSubFwd st ∧ EntitiesFresh st

/-! ## Interest scheduler (server.rs)

The per-(subject, observer) timer is advanced once per tick by
update_per_distance_setter_increase, read by the broadcast systems through
update_per_distance, and reset by update_per_distance_setter_reset when the
threshold was crossed.  All three share update_per_distance_check. -/

def update_per_distance_check (lb : ℚ) (distance : ℚ) : Bool :=
  distance / 500 + 1 / 100 ≤ lb

/-- One tick of the shared timer of one (subject, observer) pair at a fixed
distance: advance by the frame delta, emit when the check passes, then
reset to zero exactly in that case.  Returns (new timer, emitted). -/
def interestStep (distance δ lb : ℚ) : ℚ × Bool :=
  let lb1 := lb + δ
  if update_per_distance_check lb1 distance then (0, true) else (lb1, false)

/-- Number of updates emitted to an observer at the given fixed distance
over a list of tick deltas. -/
def interestCount (distance : ℚ) : List ℚ → ℚ → Nat
  | [], _ => 0
  | δ :: rest, lb =>
      (if (interestStep distance δ lb).2 then 1 else 0) +
        interestCount distance rest (interestStep distance δ lb).1

/-! ## Client reconciliation: the UpdatePositions arm of client.rs

`TimeStamp` is the sample type of the client's Past ring buffer; the arm is
modelled on the iteration sequence of that buffer, so no property of the
ring-buffer type itself is assumed.  Positions are rational triples; the
arm only copies them. -/

def V3 : Type := ℚ × ℚ × ℚ

instance : DecidableEq V3 :=
  fun a b => inferInstanceAs (Decidable (Prod.mk a.1 a.2 = Prod.mk b.1 b.2))

def addV3 (a b : V3) : V3 := (a.1 + b.1, a.2.1 + b.2.1, a.2.2 + b.2.2)

def subV3 (a b : V3) : V3 := (a.1 - b.1, a.2.1 - b.2.1, a.2.2 - b.2.2)

def smulV3 (t : ℚ) (a : V3) : V3 := (t * a.1, t * a.2.1, t * a.2.2)

structure TimeStamp where
  unix_time : Nat
  position : V3

/-- The UpdatePositions arm of receive_messages for one package whose
net id resolves to an entity that has Past storage: find the first buffered
sample older than the message timestamp (the `unwrap` panic when none
exists is none), build the upper bracket — the `lower_index < 0` branch is
dead because the index is unsigned, so the upper bracket is always the
present position — and then, with nothing further done to those brackets,
overwrite the translation with the package position and, when the entity is
not controlled, the rotation with the package rotation.  Returns the new
(translation, rotation). -/
def clientApplyPositionPackage (message_unix_time : Nat) (now_unix_time : Nat)
    (past : List TimeStamp) (translation : V3) (rot : MyQuat) (controlled : Bool)
    (package_position : V3) (package_rotation : MyQuat) : Option (V3 × MyQuat) :=
  match past.enum.find? (fun p => decide (p.2.unix_time < message_unix_time)) with
  | none => none
  | some (lower_index, _lower_time_stamp) =>
      let upper? : Option TimeStamp :=
        if lower_index < 0 then past[lower_index + 1]?
        else some ⟨now_unix_time, translation⟩
      match upper? with
      | none => none
      | some _upper_time_stamp =>
          some (package_position, if !controlled then package_rotation else rot)

/-- Modelled from the spec: the linear interpolation `lerp(p1, p2, t)` of
the reconciliation design (no such function exists in src). -/
def lerpV3 (p1 p2 : V3) (t : ℚ) : V3 := addV3 p1 (smulV3 t (subV3 p2 p1))

/-- Modelled from the spec: the corrected position the claim describes —
the delta between the authoritative sample and the interpolated predicted
position at the authoritative timestamp, added to the current predicted
position. -/
def specReconciledPosition (p1 p2 : V3) (t1 t2 tm : ℚ) (auth current : V3) : V3 :=
  addV3 current (subV3 auth (lerpV3 p1 p2 ((tm - t1) / (t2 - t1))))

/-! ## Concrete values used by witnesses and counterexamples -/

def msgOkZero : ServerMessage := ServerMessage.ok 1 0

def msgOkMax : ServerMessage :=
  ServerMessage.ok 1 340282366920938463463374607431768211455

def msgSpawnEmptyComponents : ServerMessage :=
  ServerMessage.spawn_entities 1 [⟨0, []⟩]

def bufOkZero : List Nat := padTo1000 (serverBytes msgOkZero)

def bufOkMax : List Nat := padTo1000 (serverBytes msgOkMax)

def bufSpawnEmptyComponents : List Nat := padTo1000 (serverBytes msgSpawnEmptyComponents)

def bufClientLogin : List Nat := padTo1000 (clientBytes ClientMessage.login)

/-- Predicate form of decoder totality results, shared by the client and
server parsers: on byte-valued input, a parse success yields a well-formed
value and byte-valued leftovers. -/
def ParserBound (p : List Nat → Option (α × List Nat)) (wf : α → Bool) : Prop :=
  ∀ bs a r, (∀ b ∈ bs, b < 256) → p bs = some (a, r) →
    wf a = true ∧ ∀ b ∈ r, b < 256

/-- The state produced by spawning one enemy and then processing a
SetVelocity that names the enemy's network id: the id resolves to the enemy
entity, the player query does not match it, so the stale-id cleanup removes
the id from entityMap only. -/
def c3BrokenState : ServerSim :=
  runServerOps [ServerOp.setVelocity 0 (0, 0)] (spawnEnemy initServerSim)

/-! ## Theorems -/

theorem leBytes_length (n v : Nat) : (leBytes n v).length = n := by
  induction n generalizing v with
  | zero => rfl
  | succ n ih => simp [leBytes, ih]

theorem readLE_leBytes (n : Nat) (v : Nat) (r : List Nat) :
    readLE n (leBytes n v ++ r) = some (v % 256 ^ n, r) := by
  induction n generalizing v with
  | zero => simp [leBytes, readLE, Nat.mod_one]
  | succ n ih =>
      have h : (256 : Nat) ^ (n + 1) = 256 * 256 ^ n := by ring
      simp [leBytes, readLE, ih, h, Nat.mod_mul]

theorem readLE_leBytes_of_lt {n v : Nat} (h : v < 256 ^ n) (r : List Nat) :
    readLE n (leBytes n v ++ r) = some (v, r) := by
  rw [readLE_leBytes, Nat.mod_eq_of_lt h]

theorem readLE_bound {n : Nat} {bs r : List Nat} {v : Nat}
    (hbs : ∀ b ∈ bs, b < 256) (h : readLE n bs = some (v, r)) :
    v < 256 ^ n ∧ ∀ b ∈ r, b < 256 := by
  induction n generalizing bs v r with
  | zero =>
      simp [readLE] at h
      obtain ⟨hv, hr⟩ := h
      exact ⟨by omega, hr ▸ hbs⟩
  | succ n ih =>
      match bs with
      | [] => simp [readLE] at h
      | b :: bs =>
          simp only [readLE, Option.map_eq_some'] at h
          obtain ⟨⟨w, r'⟩, hw, hv⟩ := h
          obtain ⟨hwlt, hrest⟩ := ih (fun x hx => hbs x (List.mem_cons_of_mem _ hx)) hw
          have hb : b < 256 := hbs b (List.mem_cons_self _ _)
          simp only [Prod.mk.injEq] at hv
          refine ⟨?_, hv.2 ▸ hrest⟩
          have : (256 : Nat) ^ (n + 1) = 256 * 256 ^ n := by ring
          omega

theorem ureadU32_uwrite {v : Nat} (hv : v < 4294967296) (r : List Nat) :
    ureadU32 (uwrite v ++ r) = some (v, r) := by
  by_cases h1 : v < 251
  · simp [uwrite, ureadU32, h1]
  · by_cases h2 : v < 65536
    · simp [uwrite, ureadU32, h1, h2,
        readLE_leBytes_of_lt (show v < 256 ^ 2 by norm_num; omega) r]
    · simp [uwrite, ureadU32, h1, h2, hv,
        readLE_leBytes_of_lt (show v < 256 ^ 4 by norm_num; omega) r]

theorem ureadU64_uwrite {v : Nat} (hv : v < 18446744073709551616) (r : List Nat) :
    ureadU64 (uwrite v ++ r) = some (v, r) := by
  by_cases h1 : v < 251
  · simp [uwrite, ureadU64, h1]
  · by_cases h2 : v < 65536
    · simp [uwrite, ureadU64, h1, h2,
        readLE_leBytes_of_lt (show v < 256 ^ 2 by norm_num; omega) r]
    · by_cases h3 : v < 4294967296
      · simp [uwrite, ureadU64, h1, h2, h3,
          readLE_leBytes_of_lt (show v < 256 ^ 4 by norm_num; omega) r]
      · simp [uwrite, ureadU64, h1, h2, h3, hv,
          readLE_leBytes_of_lt (show v < 256 ^ 8 by norm_num; omega) r]

theorem ureadU128_uwrite {v : Nat} (hv : v < 340282366920938463463374607431768211456)
    (r : List Nat) : ureadU128 (uwrite v ++ r) = some (v, r) := by
  by_cases h1 : v < 251
  · simp [uwrite, ureadU128, h1]
  · by_cases h2 : v < 65536
    · simp [uwrite, ureadU128, h1, h2,
        readLE_leBytes_of_lt (show v < 256 ^ 2 by norm_num; omega) r]
    · by_cases h3 : v < 4294967296
      · simp [uwrite, ureadU128, h1, h2, h3,
          readLE_leBytes_of_lt (show v < 256 ^ 4 by norm_num; omega) r]
      · by_cases h4 : v < 18446744073709551616
        · simp [uwrite, ureadU128, h1, h2, h3, h4,
            readLE_leBytes_of_lt (show v < 256 ^ 8 by norm_num; omega) r]
        · simp [uwrite, ureadU128, h1, h2, h3, h4,
            readLE_leBytes_of_lt (show v < 256 ^ 16 by norm_num; omega) r]

theorem ureadU32_bound {bs r : List Nat} {v : Nat}
    (hbs : ∀ b ∈ bs, b < 256) (h : ureadU32 bs = some (v, r)) :
    v < 4294967296 ∧ ∀ b ∈ r, b < 256 := by
  match bs with
  | [] => simp [ureadU32] at h
  | b :: bs =>
      have hb : b < 256 := hbs b (List.mem_cons_self _ _)
      have hbs' : ∀ x ∈ bs, x < 256 := fun x hx => hbs x (List.mem_cons_of_mem _ hx)
      by_cases h1 : b < 251
      · simp [ureadU32, h1] at h
        exact ⟨by omega, h.2 ▸ hbs'⟩
      · by_cases h2 : b = 251
        · simp [ureadU32, h1, h2] at h
          obtain ⟨hlt, hr⟩ := readLE_bound hbs' h
          exact ⟨by norm_num at hlt; omega, hr⟩
        · by_cases h3 : b = 252
          · simp [ureadU32, h1, h2, h3] at h
            obtain ⟨hlt, hr⟩ := readLE_bound hbs' h
            exact ⟨by norm_num at hlt; omega, hr⟩
          · simp [ureadU32, h1, h2, h3] at h

theorem ureadU64_bound {bs r : List Nat} {v : Nat}
    (hbs : ∀ b ∈ bs, b < 256) (h : ureadU64 bs = some (v, r)) :
    v < 18446744073709551616 ∧ ∀ b ∈ r, b < 256 := by
  match bs with
  | [] => simp [ureadU64] at h
  | b :: bs =>
      have hb : b < 256 := hbs b (List.mem_cons_self _ _)
      have hbs' : ∀ x ∈ bs, x < 256 := fun x hx => hbs x (List.mem_cons_of_mem _ hx)
      by_cases h1 : b < 251
      · simp [ureadU64, h1] at h
        exact ⟨by omega, h.2 ▸ hbs'⟩
      · by_cases h2 : b = 251
        · simp [ureadU64, h1, h2] at h
          obtain ⟨hlt, hr⟩ := readLE_bound hbs' h
          exact ⟨by norm_num at hlt; omega, hr⟩
        · by_cases h3 : b = 252
          · simp [ureadU64, h1, h2, h3] at h
            obtain ⟨hlt, hr⟩ := readLE_bound hbs' h
            exact ⟨by norm_num at hlt; omega, hr⟩
          · by_cases h4 : b = 253
            · simp [ureadU64, h1, h2, h3, h4] at h
              obtain ⟨hlt, hr⟩ := readLE_bound hbs' h
              exact ⟨by norm_num at hlt; omega, hr⟩
            · simp [ureadU64, h1, h2, h3, h4] at h

theorem ureadU128_bound {bs r : List Nat} {v : Nat}
    (hbs : ∀ b ∈ bs, b < 256) (h : ureadU128 bs = some (v, r)) :
    v < 340282366920938463463374607431768211456 ∧ ∀ b ∈ r, b < 256 := by
  match bs with
  | [] => simp [ureadU128] at h
  | b :: bs =>
      have hb : b < 256 := hbs b (List.mem_cons_self _ _)
      have hbs' : ∀ x ∈ bs, x < 256 := fun x hx => hbs x (List.mem_cons_of_mem _ hx)
      by_cases h1 : b < 251
      · simp [ureadU128, h1] at h
        exact ⟨by omega, h.2 ▸ hbs'⟩
      · by_cases h2 : b = 251
        · simp [ureadU128, h1, h2] at h
          obtain ⟨hlt, hr⟩ := readLE_bound hbs' h
          exact ⟨by norm_num at hlt; omega, hr⟩
        · by_cases h3 : b = 252
          · simp [ureadU128, h1, h2, h3] at h
            obtain ⟨hlt, hr⟩ := readLE_bound hbs' h
            exact ⟨by norm_num at hlt; omega, hr⟩
          · by_cases h4 : b = 253
            · simp [ureadU128, h1, h2, h3, h4] at h
              obtain ⟨hlt, hr⟩ := readLE_bound hbs' h
              exact ⟨by norm_num at hlt; omega, hr⟩
            · by_cases h5 : b = 254
              · simp [ureadU128, h1, h2, h3, h4, h5] at h
                obtain ⟨hlt, hr⟩ := readLE_bound hbs' h
                exact ⟨by norm_num at hlt; omega, hr⟩
              · simp [ureadU128, h1, h2, h3, h4, h5] at h

/-! ## Round-trip lemmas: each parser inverts its encoder on a prefix -/

theorem parseF32_enc {b : Nat} (hb : b < 4294967296) (r : List Nat) :
    parseF32 (encF32 b ++ r) = some (b, r) := by
  have hb' : b < 256 ^ 4 := by norm_num; omega
  exact readLE_leBytes_of_lt hb' r

theorem parseMyVec3_enc {v : MyVec3} (h : wfMyVec3 v = true) (r : List Nat) :
    parseMyVec3 (encMyVec3 v ++ r) = some (v, r) := by
  obtain ⟨x, y, z⟩ := v
  simp [wfMyVec3, wfF32] at h
  simp [encMyVec3, parseMyVec3, List.append_assoc,
    parseF32_enc (show x < 4294967296 by omega),
    parseF32_enc (show y < 4294967296 by omega),
    parseF32_enc (show z < 4294967296 by omega)]

theorem parseMyQuat_enc {q : MyQuat} (h : wfMyQuat q = true) (r : List Nat) :
    parseMyQuat (encMyQuat q ++ r) = some (q, r) := by
  obtain ⟨x, y, z, w⟩ := q
  simp [wfMyQuat, wfF32] at h
  simp [encMyQuat, parseMyQuat, List.append_assoc,
    parseF32_enc (show x < 4294967296 by omega),
    parseF32_enc (show y < 4294967296 by omega),
    parseF32_enc (show z < 4294967296 by omega),
    parseF32_enc (show w < 4294967296 by omega)]

theorem parseMyVec2_enc {v : MyVec2} (h : wfMyVec2 v = true) (r : List Nat) :
    parseMyVec2 (encMyVec2 v ++ r) = some (v, r) := by
  obtain ⟨x, y⟩ := v
  simp [wfMyVec2, wfF32] at h
  simp [encMyVec2, parseMyVec2, List.append_assoc,
    parseF32_enc (show x < 4294967296 by omega),
    parseF32_enc (show y < 4294967296 by omega)]

theorem parseN_enc {p : List Nat → Option (α × List Nat)} {enc : α → List Nat} {l : List α}
    (hp : ∀ a ∈ l, ∀ r, p (enc a ++ r) = some (a, r)) (r : List Nat) :
    parseN p l.length ((l.map enc).flatten ++ r) = some (l, r) := by
  induction l with
  | nil => simp [parseN]
  | cons a l ih =>
      simp only [List.map_cons, List.flatten_cons, List.length_cons, parseN,
        List.append_assoc, hp a (List.mem_cons_self _ _)]
      simp [ih (fun a ha r => hp a (List.mem_cons_of_mem _ ha) r)]

theorem parseListWith_enc {p : List Nat → Option (α × List Nat)} {enc : α → List Nat}
    {l : List α} (hlen : l.length < 18446744073709551616)
    (hp : ∀ a ∈ l, ∀ r, p (enc a ++ r) = some (a, r)) (r : List Nat) :
    parseListWith p (encListWith enc l ++ r) = some (l, r) := by
  simp [parseListWith, encListWith, List.append_assoc, ureadU64_uwrite hlen,
    parseN_enc hp]

theorem parsePositionPackage_enc {p : PositionPackage} (h : wfPositionPackage p = true)
    (r : List Nat) : parsePositionPackage (encPositionPackage p ++ r) = some (p, r) := by
  obtain ⟨i, pos, rot⟩ := p
  simp [wfPositionPackage, wfU128] at h
  obtain ⟨⟨hi, hpos⟩, hrot⟩ := h
  simp [encPositionPackage, parsePositionPackage, List.append_assoc, ureadU128_uwrite hi,
    parseMyVec3_enc hpos, parseMyQuat_enc hrot]

theorem parsePlayerLookPackage_enc {p : PlayerLookPackage} (h : wfPlayerLookPackage p = true)
    (r : List Nat) : parsePlayerLookPackage (encPlayerLookPackage p ++ r) = some (p, r) := by
  obtain ⟨i, rot⟩ := p
  simp [wfPlayerLookPackage, wfU128] at h
  obtain ⟨hi, hrot⟩ := h
  simp [encPlayerLookPackage, parsePlayerLookPackage, List.append_assoc,
    ureadU128_uwrite hi, parseMyQuat_enc hrot]

theorem parseVelocityPackage_enc {p : VelocityPackage} (h : wfVelocityPackage p = true)
    (r : List Nat) : parseVelocityPackage (encVelocityPackage p ++ r) = some (p, r) := by
  obtain ⟨i, v⟩ := p
  simp [wfVelocityPackage, wfU128] at h
  obtain ⟨hi, hv⟩ := h
  simp [encVelocityPackage, parseVelocityPackage, List.append_assoc, ureadU128_uwrite hi,
    parseMyVec3_enc hv]

theorem parseHealthPackage_enc {p : HealthPackage} (h : wfHealthPackage p = true)
    (r : List Nat) : parseHealthPackage (encHealthPackage p ++ r) = some (p, r) := by
  obtain ⟨i, hv⟩ := p
  simp [wfHealthPackage, wfU128, wfF32] at h
  obtain ⟨hi, hh⟩ := h
  simp [encHealthPackage, parseHealthPackage, List.append_assoc, ureadU128_uwrite hi,
    parseF32_enc hh]

theorem parseNetComponent_enc {c : NetComponent} (h : wfNetComponent c = true)
    (r : List Nat) : parseNetComponent (encNetComponent c ++ r) = some (c, r) := by
  have tag32 : ∀ t : Nat, t < 12 → t < 2 ^ 32 := by intro t ht; omega
  cases c with
  | LinearVelocity v =>
      simp [wfNetComponent] at h
      simp [encNetComponent, parseNetComponent, List.append_assoc,
        ureadU32_uwrite (tag32 0 (by norm_num)), parseMyVec3_enc h]
  | Transform t rq s =>
      simp [wfNetComponent] at h
      obtain ⟨⟨ht, hr⟩, hs⟩ := h
      simp [encNetComponent, parseNetComponent, List.append_assoc,
        ureadU32_uwrite (tag32 1 (by norm_num)), parseMyVec3_enc ht, parseMyQuat_enc hr,
        parseMyVec3_enc hs]
  | Sphere rad =>
      simp [wfNetComponent, wfF32] at h
      simp [encNetComponent, parseNetComponent, List.append_assoc,
        ureadU32_uwrite (tag32 2 (by norm_num)), parseF32_enc h]
  | SphereCollider rad =>
      simp [wfNetComponent, wfF32] at h
      simp [encNetComponent, parseNetComponent, List.append_assoc,
        ureadU32_uwrite (tag32 3 (by norm_num)), parseF32_enc h]
  | Capsule rad hh =>
      simp [wfNetComponent, wfF32] at h
      obtain ⟨h1, h2⟩ := h
      simp [encNetComponent, parseNetComponent, List.append_assoc,
        ureadU32_uwrite (tag32 4 (by norm_num)), parseF32_enc h1, parseF32_enc h2]
  | CapsuleCollider rad hh =>
      simp [wfNetComponent, wfF32] at h
      obtain ⟨h1, h2⟩ := h
      simp [encNetComponent, parseNetComponent, List.append_assoc,
        ureadU32_uwrite (tag32 5 (by norm_num)), parseF32_enc h1, parseF32_enc h2]
  | ColorMaterial cr cg cb =>
      simp [wfNetComponent, wfF32] at h
      obtain ⟨⟨h1, h2⟩, h3⟩ := h
      simp [encNetComponent, parseNetComponent, List.append_assoc,
        ureadU32_uwrite (tag32 6 (by norm_num)), parseF32_enc h1, parseF32_enc h2,
        parseF32_enc h3]
  | Health v =>
      simp [wfNetComponent, wfF32] at h
      simp [encNetComponent, parseNetComponent, List.append_assoc,
        ureadU32_uwrite (tag32 7 (by norm_num)), parseF32_enc h]
  | Player =>
      simp [encNetComponent, parseNetComponent, List.append_assoc,
        ureadU32_uwrite (tag32 8 (by norm_num))]
  | Enemy =>
      simp [encNetComponent, parseNetComponent, List.append_assoc,
        ureadU32_uwrite (tag32 9 (by norm_num))]
  | Radius v =>
      simp [wfNetComponent, wfF32] at h
      simp [encNetComponent, parseNetComponent, List.append_assoc,
        ureadU32_uwrite (tag32 10 (by norm_num)), parseF32_enc h]
  | SpotLight v =>
      simp [wfNetComponent, wfF32] at h
      simp [encNetComponent, parseNetComponent, List.append_assoc,
        ureadU32_uwrite (tag32 11 (by norm_num)), parseF32_enc h]

theorem parseEntityPackage_enc {p : EntityPackage} (h : wfEntityPackage p = true)
    (r : List Nat) : parseEntityPackage (encEntityPackage p ++ r) = some (p, r) := by
  obtain ⟨i, cs⟩ := p
  simp [wfEntityPackage, wfU128, wfListWith] at h
  obtain ⟨hi, hlen, hall⟩ := h
  simp [encEntityPackage, parseEntityPackage, List.append_assoc, ureadU128_uwrite hi,
    parseListWith_enc hlen (fun c hc r => parseNetComponent_enc (hall c hc) r)]

theorem parseServerInner_enc {m : ServerMessageInner} (h : wfServerInner m = true)
    (r : List Nat) : parseServerInner (encServerInner m ++ r) = some (m, r) := by
  have tag32 : ∀ t : Nat, t < 12 → t < 2 ^ 32 := by intro t ht; omega
  cases m with
  | Ok i =>
      simp [wfServerInner, wfU128] at h
      simp [encServerInner, parseServerInner, List.append_assoc,
        ureadU32_uwrite (tag32 0 (by norm_num)), ureadU128_uwrite h]
  | SpawnEntities ps =>
      simp [wfServerInner, wfListWith] at h
      obtain ⟨hlen, hall⟩ := h
      simp [encServerInner, parseServerInner, List.append_assoc,
        ureadU32_uwrite (tag32 1 (by norm_num)),
        parseListWith_enc hlen (fun p hp r => parseEntityPackage_enc (hall p hp) r)]
  | UpdateEntities ps =>
      simp [wfServerInner, wfListWith] at h
      obtain ⟨hlen, hall⟩ := h
      simp [encServerInner, parseServerInner, List.append_assoc,
        ureadU32_uwrite (tag32 2 (by norm_num)),
        parseListWith_enc hlen (fun p hp r => parseEntityPackage_enc (hall p hp) r)]
  | UpdatePositions ps =>
      simp [wfServerInner, wfListWith] at h
      obtain ⟨hlen, hall⟩ := h
      simp [encServerInner, parseServerInner, List.append_assoc,
        ureadU32_uwrite (tag32 3 (by norm_num)),
        parseListWith_enc hlen (fun p hp r => parsePositionPackage_enc (hall p hp) r)]
  | UpdatePlayerLooks ps =>
      simp [wfServerInner, wfListWith] at h
      obtain ⟨hlen, hall⟩ := h
      simp [encServerInner, parseServerInner, List.append_assoc,
        ureadU32_uwrite (tag32 4 (by norm_num)),
        parseListWith_enc hlen (fun p hp r => parsePlayerLookPackage_enc (hall p hp) r)]
  | UpdateVelocities ps =>
      simp [wfServerInner, wfListWith] at h
      obtain ⟨hlen, hall⟩ := h
      simp [encServerInner, parseServerInner, List.append_assoc,
        ureadU32_uwrite (tag32 5 (by norm_num)),
        parseListWith_enc hlen (fun p hp r => parseVelocityPackage_enc (hall p hp) r)]
  | UpdateHealths ps =>
      simp [wfServerInner, wfListWith] at h
      obtain ⟨hlen, hall⟩ := h
      simp [encServerInner, parseServerInner, List.append_assoc,
        ureadU32_uwrite (tag32 6 (by norm_num)),
        parseListWith_enc hlen (fun p hp r => parseHealthPackage_enc (hall p hp) r)]
  | Confirm i =>
      simp [wfServerInner, wfU64] at h
      simp [encServerInner, parseServerInner, List.append_assoc,
        ureadU32_uwrite (tag32 7 (by norm_num)), ureadU64_uwrite h]

theorem parseServerMessage_enc {m : ServerMessage} (h : wfServerMessage m = true)
    (r : List Nat) : parseServerMessage (serverBytes m ++ r) = some (m, r) := by
  obtain ⟨rel, inner⟩ := m
  simp [wfServerMessage, wfU64] at h
  obtain ⟨hrel, hinner⟩ := h
  simp [serverBytes, parseServerMessage, List.append_assoc, ureadU64_uwrite hrel,
    parseServerInner_enc hinner]

theorem parseClientInner_enc {m : ClientMessageInner} (h : wfClientInner m = true)
    (r : List Nat) : parseClientInner (encClientInner m ++ r) = some (m, r) := by
  have tag32 : ∀ t : Nat, t < 12 → t < 2 ^ 32 := by intro t ht; omega
  cases m with
  | Login =>
      simp [encClientInner, parseClientInner, List.append_assoc,
        ureadU32_uwrite (tag32 0 (by norm_num))]
  | SetVelocity i v =>
      simp [wfClientInner, wfU128] at h
      obtain ⟨hi, hv⟩ := h
      simp [encClientInner, parseClientInner, List.append_assoc,
        ureadU32_uwrite (tag32 1 (by norm_num)), ureadU128_uwrite hi, parseMyVec2_enc hv]
  | Rotation i q =>
      simp [wfClientInner, wfU128] at h
      obtain ⟨hi, hq⟩ := h
      simp [encClientInner, parseClientInner, List.append_assoc,
        ureadU32_uwrite (tag32 2 (by norm_num)), ureadU128_uwrite hi, parseMyQuat_enc hq]
  | Confirm i =>
      simp [wfClientInner, wfU64] at h
      simp [encClientInner, parseClientInner, List.append_assoc,
        ureadU32_uwrite (tag32 3 (by norm_num)), ureadU64_uwrite h]
  | Jump i =>
      simp [wfClientInner, wfU128] at h
      simp [encClientInner, parseClientInner, List.append_assoc,
        ureadU32_uwrite (tag32 4 (by norm_num)), ureadU128_uwrite h]
  | Shoot i d =>
      simp [wfClientInner, wfU128] at h
      obtain ⟨hi, hd⟩ := h
      simp [encClientInner, parseClientInner, List.append_assoc,
        ureadU32_uwrite (tag32 5 (by norm_num)), ureadU128_uwrite hi, parseMyVec3_enc hd]

theorem parseClientMessage_enc {m : ClientMessage} (h : wfClientMessage m = true)
    (r : List Nat) : parseClientMessage (clientBytes m ++ r) = some (m, r) := by
  obtain ⟨rel, inner⟩ := m
  simp [wfClientMessage, wfU64] at h
  obtain ⟨hrel, hinner⟩ := h
  simp [clientBytes, parseClientMessage, List.append_assoc, ureadU64_uwrite hrel,
    parseClientInner_enc hinner]

/-! ## Association-list lemmas -/

theorem alGet_nil (k : Nat) : alGet ([] : List (Nat × β)) k = none := rfl

theorem alGet_some_mem {l : List (Nat × β)} {k : Nat} {v : β}
    (h : alGet l k = some v) : (k, v) ∈ l := by
  induction l with
  | nil => simp [alGet] at h
  | cons p rest ih =>
      obtain ⟨p1, p2⟩ := p
      by_cases hp : p1 = k
      · subst hp
        simp [alGet] at h
        subst h
        exact List.mem_cons_self _ _
      · simp only [alGet, if_neg hp] at h
        exact List.mem_cons_of_mem _ (ih h)

theorem alGet_eq_none_of_not_mem {l : List (Nat × β)} {k : Nat}
    (h : ∀ p ∈ l, p.1 ≠ k) : alGet l k = none := by
  induction l with
  | nil => rfl
  | cons p rest ih =>
      have hp : p.1 ≠ k := h p (List.mem_cons_self _ _)
      simp only [alGet, if_neg hp]
      exact ih (fun q hq => h q (List.mem_cons_of_mem _ hq))

theorem alRemove_of_not_mem {l : List (Nat × β)} {k : Nat}
    (h : ∀ p ∈ l, p.1 ≠ k) : alRemove l k = l := by
  induction l with
  | nil => rfl
  | cons p rest ih =>
      have hp : p.1 ≠ k := h p (List.mem_cons_self _ _)
      simp only [alRemove, if_neg hp]
      rw [ih (fun q hq => h q (List.mem_cons_of_mem _ hq))]

theorem mem_alRemove {l : List (Nat × β)} {k : Nat} {p : Nat × β}
    (h : p ∈ alRemove l k) : p ∈ l ∧ p.1 ≠ k := by
  induction l with
  | nil => simp [alRemove] at h
  | cons q rest ih =>
      by_cases hq : q.1 = k
      · simp only [alRemove, if_pos hq] at h
        obtain ⟨h1, h2⟩ := ih h
        exact ⟨List.mem_cons_of_mem _ h1, h2⟩
      · simp only [alRemove, if_neg hq, List.mem_cons] at h
        rcases h with h | h
        · subst h
          exact ⟨List.mem_cons_self _ _, hq⟩
        · obtain ⟨h1, h2⟩ := ih h
          exact ⟨List.mem_cons_of_mem _ h1, h2⟩

theorem alGet_alRemove_self (l : List (Nat × β)) (k : Nat) :
    alGet (alRemove l k) k = none := by
  induction l with
  | nil => rfl
  | cons p rest ih =>
      by_cases hp : p.1 = k
      · simpa [alRemove, hp] using ih
      · simpa [alRemove, alGet, hp] using ih

theorem alGet_alRemove_ne (l : List (Nat × β)) {k k' : Nat} (h : k' ≠ k) :
    alGet (alRemove l k) k' = alGet l k' := by
  induction l with
  | nil => rfl
  | cons p rest ih =>
      by_cases hp : p.1 = k
      · have hp' : p.1 ≠ k' := by omega
        simp only [alRemove, if_pos hp, alGet, if_neg hp']
        exact ih
      · by_cases hp' : p.1 = k'
        · simp only [alRemove, if_neg hp, alGet, if_pos hp']
        · simp only [alRemove, if_neg hp, alGet, if_neg hp']
          exact ih

theorem alGet_append_singleton_self (l : List (Nat × β)) (k : Nat) (v : β)
    (h : ∀ p ∈ l, p.1 ≠ k) : alGet (l ++ [(k, v)]) k = some v := by
  induction l with
  | nil => simp [alGet]
  | cons p rest ih =>
      have hp : p.1 ≠ k := h p (List.mem_cons_self _ _)
      simp only [List.cons_append, alGet, if_neg hp]
      exact ih (fun q hq => h q (List.mem_cons_of_mem _ hq))

theorem alGet_append_singleton_ne (l : List (Nat × β)) {k k' : Nat} (v : β)
    (h : k' ≠ k) : alGet (l ++ [(k, v)]) k' = alGet l k' := by
  induction l with
  | nil =>
      have hk : k ≠ k' := Ne.symm h
      simp only [List.nil_append, alGet, if_neg hk]
  | cons p rest ih =>
      by_cases hp : p.1 = k'
      · simp only [List.cons_append, alGet, if_pos hp]
      · simp only [List.cons_append, alGet, if_neg hp]
        exact ih

theorem mem_alInsert {l : List (Nat × β)} {k : Nat} {v : β} {p : Nat × β}
    (h : p ∈ alInsert l k v) : p ∈ l ∨ p = (k, v) := by
  simp only [alInsert, List.mem_append, List.mem_singleton] at h
  rcases h with h | h
  · exact Or.inl (mem_alRemove h).1
  · exact Or.inr h

theorem alGet_alInsert_self (l : List (Nat × β)) (k : Nat) (v : β) :
    alGet (alInsert l k v) k = some v :=
  alGet_append_singleton_self _ _ _ (fun _p hp => (mem_alRemove hp).2)

theorem alGet_alInsert_ne (l : List (Nat × β)) {k k' : Nat} (v : β) (h : k' ≠ k) :
    alGet (alInsert l k v) k' = alGet l k' := by
  rw [alInsert, alGet_append_singleton_ne _ _ h, alGet_alRemove_ne l h]

/-! ## C4: reliability tag of Confirm messages -/

/-- C4 counterexample: the claim says every server-built Confirm carries
reliable tag 0; `ServerMessage::confirm` sets the tag to 1. -/
theorem c4_counterexample : (ServerMessage.confirm 5).reliable ≠ 0 := by decide

/-- C4 (amended): a client-built Confirm carries reliable tag 0, but a
server-built Confirm is constructed with reliable tag 1, so the server's
confirms are escalated to reliable (they receive a sequence number and
enter the pending table at send time). -/
theorem c4_confirm_reliability_tags (id : Nat) :
    (ServerMessage.confirm id).reliable = 1 ∧ (ClientMessage.confirm id).reliable = 0 :=
  ⟨rfl, rfl⟩

/-! ## C5: reliability tag of the batched state-update constructors -/

/-- C5 counterexample: the claim says all four batched update channels are
built with reliable tag 0; `ServerMessage::update_healths` sets the tag
to 1. -/
theorem c5_counterexample : (ServerMessage.update_healths []).reliable ≠ 0 := by decide

/-- C5 (amended): the position, velocity and player-look batch constructors
carry reliable tag 0, but the health batch constructor carries reliable
tag 1, so health updates are sent reliably. -/
theorem c5_batched_update_reliability_tags (ps : List PositionPackage)
    (vs : List VelocityPackage) (ls : List PlayerLookPackage) (hs : List HealthPackage) :
    (ServerMessage.update_positions ps).reliable = 0 ∧
    (ServerMessage.update_velocities vs).reliable = 0 ∧
    (ServerMessage.update_player_looks ls).reliable = 0 ∧
    (ServerMessage.update_healths hs).reliable = 1 :=
  ⟨rfl, rfl, rfl, rfl⟩

/-! ## C6: the reconciliation arm applies no correction delta -/

/-- C6: at a failing input with buffered samples (100, (0,0,0)) and
(200, (10,0,0)), authoritative timestamp 150, current predicted position
(10,0,0) and authoritative position (4,0,0), the UpdatePositions arm
overwrites the translation with the authoritative position (4,0,0), while
the claimed correction is current + (auth − lerp) = (9,0,0): the code
hard-snaps and never computes the interpolation delta (its bracket values
are computed and then unused). -/
theorem c6_code_hard_snap :
    clientApplyPositionPackage 150 210
        [⟨100, ((0 : ℚ), (0 : ℚ), (0 : ℚ))⟩, ⟨200, ((10 : ℚ), (0 : ℚ), (0 : ℚ))⟩]
        ((10 : ℚ), (0 : ℚ), (0 : ℚ)) ⟨0, 0, 0, 0⟩ true
        ((4 : ℚ), (0 : ℚ), (0 : ℚ)) ⟨1, 2, 3, 4⟩
      = some (((4 : ℚ), (0 : ℚ), (0 : ℚ)), ⟨0, 0, 0, 0⟩) ∧
    specReconciledPosition ((0 : ℚ), (0 : ℚ), (0 : ℚ)) ((10 : ℚ), (0 : ℚ), (0 : ℚ))
        100 200 150 ((4 : ℚ), (0 : ℚ), (0 : ℚ)) ((10 : ℚ), (0 : ℚ), (0 : ℚ))
      = ((9 : ℚ), (0 : ℚ), (0 : ℚ)) ∧
    (((4 : ℚ), (0 : ℚ), (0 : ℚ)) : V3) ≠ ((9 : ℚ), (0 : ℚ), (0 : ℚ)) := by
  refine ⟨by decide, ?_, by decide⟩
  norm_num [specReconciledPosition, lerpV3, addV3, subV3, smulV3]

/-! ## C10: frame effect of the SetVelocity arm -/

/-- C10: when the network id resolves to an entity of the player query,
the SetVelocity arm overwrites only the x and y components of that
player's linear velocity, keeps its z component, and leaves every other
entity's velocity and all other state unchanged. -/
theorem c10_setvelocity_frame_effect (st : ServerSim) (nid : Nat) (v : ℚ × ℚ)
    (e : Nat) (vel : LinearVelocity)
    (he : alGet st.entityMap nid = some e) (hp : alGet st.players e = some vel) :
    handleSetVelocity nid v st =
      { st with players := alInsert st.players e ⟨v.1, v.2, vel.z⟩ } ∧
    alGet (handleSetVelocity nid v st).players e = some ⟨v.1, v.2, vel.z⟩ ∧
    (∀ e', e' ≠ e → alGet (handleSetVelocity nid v st).players e' = alGet st.players e') ∧
    (handleSetVelocity nid v st).entityMap = st.entityMap ∧
    (handleSetVelocity nid v st).netIdMap = st.netIdMap ∧
    (handleSetVelocity nid v st).clientPlayerMap = st.clientPlayerMap ∧
    (handleSetVelocity nid v st).playerLooks = st.playerLooks := by
  have heq : handleSetVelocity nid v st =
      { st with players := alInsert st.players e ⟨v.1, v.2, vel.z⟩ } := by
    unfold handleSetVelocity
    simp only [he, hp]
  refine ⟨heq, ?_, ?_, by rw [heq], by rw [heq], by rw [heq], by rw [heq]⟩
  · rw [heq]
    exact alGet_alInsert_self _ _ _
  · intro e' hne
    rw [heq]
    exact alGet_alInsert_ne _ _ hne

/-- Witness for C10 at a concrete state: one player entity 0 with velocity
(1, 2, 7), SetVelocity to (3, 4) yields (3, 4, 7). -/
theorem c10_setvelocity_frame_effect_witness :
    alGet (handleSetVelocity 0 ((3 : ℚ), (4 : ℚ))
        { initServerSim with
            entityMap := [(0, 0)], netIdMap := [(0, 0)],
            players := [(0, ⟨1, 2, 7⟩)], nextEntity := 1 }).players 0 =
      some ⟨3, 4, 7⟩ :=
  (c10_setvelocity_frame_effect
    { initServerSim with
        entityMap := [(0, 0)], netIdMap := [(0, 0)],
        players := [(0, ⟨1, 2, 7⟩)], nextEntity := 1 }
    0 ((3 : ℚ), (4 : ℚ)) 0 ⟨1, 2, 7⟩ (by decide) (by decide)).2.1

/-! ## C3: identity-map symmetry under the message handlers -/

theorem simInv_keepMaps {st st' : ServerSim} (h : SimInv st)
    (hn : st'.netIdMap = st.netIdMap) (he : st'.entityMap = st.entityMap)
    (hx : st.nextEntity ≤ st'.nextEntity) : SimInv st' := by
  obtain ⟨hrev, hf1, hf2⟩ := h
  refine ⟨?_, ?_, ?_⟩
  · intro nid e hg
    rw [he] at hg
    rw [hn]
    exact hrev nid e hg
  · intro p hp
    rw [hn] at hp
    exact lt_of_lt_of_le (hf1 p hp) hx
  · intro p hp
    rw [he] at hp
    exact lt_of_lt_of_le (hf2 p hp) hx

theorem simInv_removeEntity {st st' : ServerSim} (h : SimInv st) (k : Nat)
    (hn : st'.netIdMap = st.netIdMap) (he : st'.entityMap = alRemove st.entityMap k)
    (hx : st.nextEntity ≤ st'.nextEntity) : SimInv st' := by
  obtain ⟨hrev, hf1, hf2⟩ := h
  refine ⟨?_, ?_, ?_⟩
  · intro nid e hg
    rw [he] at hg
    rw [hn]
    by_cases hk : nid = k
    · subst hk
      rw [alGet_alRemove_self] at hg
      exact absurd hg (by simp)
    · rw [alGet_alRemove_ne _ hk] at hg
      exact hrev nid e hg
  · intro p hp
    rw [hn] at hp
    exact lt_of_lt_of_le (hf1 p hp) hx
  · intro p hp
    rw [he] at hp
    exact lt_of_lt_of_le (hf2 p (mem_alRemove hp).1) hx

theorem simInv_bindPair {st st' : ServerSim} (h : SimInv st)
    (hn : st'.netIdMap = alInsert st.netIdMap st.nextEntity st.idCounter)
    (he : st'.entityMap = alInsert st.entityMap st.idCounter st.nextEntity)
    (hx : st'.nextEntity = st.nextEntity + 1) : SimInv st' := by
  obtain ⟨hrev, hf1, hf2⟩ := h
  refine ⟨?_, ?_, ?_⟩
  · intro nid e hg
    rw [he] at hg
    rw [hn]
    by_cases hk : nid = st.idCounter
    · subst hk
      rw [alGet_alInsert_self] at hg
      have he' : e = st.nextEntity := by
        exact (Option.some.inj hg).symm
      subst he'
      exact alGet_alInsert_self _ _ _
    · rw [alGet_alInsert_ne _ _ hk] at hg
      have hmem := alGet_some_mem hg
      have helt : e < st.nextEntity := hf2 (nid, e) hmem
      have hene : e ≠ st.nextEntity := by omega
      rw [alGet_alInsert_ne _ _ hene]
      exact hrev nid e hg
  · intro p hp
    rw [hn] at hp
    rcases mem_alInsert hp with hp | hp
    · have := hf1 p hp
      omega
    · rw [hp, hx]
      simp
  · intro p hp
    rw [he] at hp
    rcases mem_alInsert hp with hp | hp
    · have := hf2 p hp
      omega
    · rw [hp, hx]
      simp

theorem simInv_applyOp (op : ServerOp) (st : ServerSim) (h : SimInv st) :
    SimInv (applyServerOp op st) := by
  cases op with
  | login addr =>
      show SimInv (handleLogin addr st)
      rcases hcase : alGet st.clientPlayerMap addr with _ | e
      · simp only [handleLogin, hcase]
        exact simInv_bindPair h rfl rfl rfl
      · simp only [handleLogin, hcase]
        exact h
  | setVelocity i v =>
      show SimInv (handleSetVelocity i v st)
      rcases hcase : alGet st.entityMap i with _ | e
      · simp only [handleSetVelocity, hcase]
        exact simInv_removeEntity h i rfl rfl le_rfl
      · rcases hp : alGet st.players e with _ | vel
        · simp only [handleSetVelocity, hcase, hp]
          exact simInv_removeEntity h i rfl rfl le_rfl
        · simp only [handleSetVelocity, hcase, hp]
          exact simInv_keepMaps h rfl rfl le_rfl
  | jump i =>
      show SimInv (handleJump i st)
      rcases hcase : alGet st.entityMap i with _ | e
      · simp only [handleJump, hcase]
        exact simInv_removeEntity h i rfl rfl le_rfl
      · rcases hp : alGet st.players e with _ | vel
        · simp only [handleJump, hcase, hp]
          exact simInv_removeEntity h i rfl rfl le_rfl
        · simp only [handleJump, hcase, hp]
          exact simInv_keepMaps h rfl rfl le_rfl
  | rotationOp i q =>
      show SimInv (handleRotation i q st)
      rcases hcase : alGet st.entityMap i with _ | e
      · simp only [handleRotation, hcase]
        exact simInv_removeEntity h i rfl rfl le_rfl
      · rcases hp : alGet st.playerLooks e with _ | lk
        · simp only [handleRotation, hcase, hp]
          exact simInv_removeEntity h i rfl rfl le_rfl
        · simp only [handleRotation, hcase, hp]
          exact simInv_keepMaps h rfl rfl le_rfl
  | shoot i =>
      show SimInv (handleShoot i st)
      rcases hcase : alGet st.entityMap i with _ | e
      · simp only [handleShoot, hcase]
        exact simInv_removeEntity h i rfl rfl le_rfl
      · rcases hp : alGet st.players e with _ | vel
        · simp only [handleShoot, hcase, hp]
          exact simInv_removeEntity h i rfl rfl le_rfl
        · simp only [handleShoot, hcase, hp]
          exact simInv_keepMaps h rfl rfl (by simp)
  | confirmOp => exact h

theorem simInv_spawnEnemy (st : ServerSim) (h : SimInv st) : SimInv (spawnEnemy st) :=
  simInv_bindPair h rfl rfl rfl

/-- C3 counterexample: spawn one enemy (net id 0, entity 0; both maps hold
the pair) and process a SetVelocity naming that net id.  The enemy fails
the player query, so the stale-identity cleanup removes the id from
entityMap only: netIdMap still maps entity 0 to id 0, but entityMap no
longer has an entry for id 0 — the maps are not symmetric. -/
theorem c3_counterexample :
    alGet c3BrokenState.netIdMap 0 = some 0 ∧
    alGet c3BrokenState.entityMap 0 = none ∧
    ¬ MapsSymmetric c3BrokenState := by
  refine ⟨by decide, by decide, ?_⟩
  intro hsym
  have h0 := hsym.2 0 0 (by decide)
  rw [show alGet c3BrokenState.entityMap 0 = none from by decide] at h0
  exact absurd h0 (by simp)

/-- C3 (amended): after any sequence of message-handler operations from a
state satisfying the one-sided invariant (every NetworkIdentity → Entity
entry has its matching Entity → NetworkIdentity entry, and spawned entities
are fresh), that invariant still holds; the startup enemy-spawn state
satisfies it.  Full symmetry is not preserved: the stale-identity cleanup
removes only the entityMap direction (see the counterexample), so only the
entityMap-to-netIdMap inclusion survives every handler. -/
theorem c3_identity_map_invariant :
    (∀ (ops : List ServerOp) (st : ServerSim), SimInv st → SimInv (runServerOps ops st)) ∧
    (∀ n : Nat, SimInv (spawnEnemies n initServerSim)) := by
  have hrun : ∀ (ops : List ServerOp) (st : ServerSim), SimInv st →
      SimInv (runServerOps ops st) := by
    intro ops
    induction ops with
    | nil => intro st h; exact h
    | cons op rest ih =>
        intro st h
        exact ih _ (simInv_applyOp op st h)
  have hinit : SimInv initServerSim := by
    refine ⟨?_, ?_, ?_⟩
    · intro nid e hg
      simp [initServerSim, alGet] at hg
    · intro p hp
      simp [initServerSim] at hp
    · intro p hp
      simp [initServerSim] at hp
  have hspawn : ∀ (n : Nat) (st : ServerSim), SimInv st → SimInv (spawnEnemies n st) := by
    intro n
    induction n with
    | zero => intro st h; exact h
    | succ n ih =>
        intro st h
        exact ih _ (simInv_spawnEnemy st h)
  exact ⟨hrun, fun n => hspawn n _ hinit⟩

/-- Witness for C3 at a concrete input: the invariant holds after a login
processed from the empty initial state. -/
theorem c3_identity_map_invariant_witness :
    SimInv (runServerOps [ServerOp.login 0] initServerSim) :=
  c3_identity_map_invariant.1 [ServerOp.login 0] initServerSim
    ⟨fun nid e hg => by simp [initServerSim, alGet] at hg,
     fun p hp => by simp [initServerSim] at hp,
     fun p hp => by simp [initServerSim] at hp⟩

/-! ## C7: distance monotonicity of the interest scheduler -/

theorem interestAux (d1 d2 : ℚ) (hd : d1 ≤ d2) (δs : List ℚ) (hδs : ∀ δ ∈ δs, 0 ≤ δ) :
    (∀ t1 t2 : ℚ, t2 ≤ t1 → interestCount d2 δs t2 ≤ interestCount d1 δs t1) ∧
    (∀ t1 t2 : ℚ, 0 ≤ t1 → interestCount d2 δs t2 ≤ interestCount d1 δs t1 + 1) := by
  induction δs with
  | nil => simp [interestCount]
  | cons δ rest ih =>
      have hδ : 0 ≤ δ := hδs δ (List.mem_cons_self _ _)
      obtain ⟨ih1, ih2⟩ := ih (fun x hx => hδs x (List.mem_cons_of_mem _ hx))
      constructor
      · intro t1 t2 hle
        cases hc2 : update_per_distance_check (t2 + δ) d2 with
        | true =>
            have hc2' : d2 / 500 + 1 / 100 ≤ t2 + δ := by
              simpa [update_per_distance_check] using hc2
            have hc1 : update_per_distance_check (t1 + δ) d1 = true := by
              simp only [update_per_distance_check, decide_eq_true_eq]
              linarith
            simp only [interestCount, interestStep, hc2, hc1, if_true]
            have := ih1 0 0 le_rfl
            omega
        | false =>
            cases hc1 : update_per_distance_check (t1 + δ) d1 with
            | true =>
                simp only [interestCount, interestStep, hc2, hc1, if_true, if_false,
                  Bool.false_eq_true]
                have := ih2 0 (t2 + δ) le_rfl
                omega
            | false =>
                simp only [interestCount, interestStep, hc2, hc1, if_false,
                  Bool.false_eq_true]
                have := ih1 (t1 + δ) (t2 + δ) (by linarith)
                omega
      · intro t1 t2 ht1
        cases hc2 : update_per_distance_check (t2 + δ) d2 with
        | true =>
            cases hc1 : update_per_distance_check (t1 + δ) d1 with
            | true =>
                simp only [interestCount, interestStep, hc2, hc1, if_true]
                have := ih1 0 0 le_rfl
                omega
            | false =>
                simp only [interestCount, interestStep, hc2, hc1, if_true, if_false,
                  Bool.false_eq_true]
                have := ih1 (t1 + δ) 0 (by linarith)
                omega
        | false =>
            cases hc1 : update_per_distance_check (t1 + δ) d1 with
            | true =>
                simp only [interestCount, interestStep, hc2, hc1, if_true, if_false,
                  Bool.false_eq_true]
                have := ih2 0 (t2 + δ) le_rfl
                omega
            | false =>
                simp only [interestCount, interestStep, hc2, hc1, if_false,
                  Bool.false_eq_true]
                have := ih2 (t1 + δ) (t2 + δ) (by linarith)
                omega

/-- C7: for two observer/subject pairs at fixed distances d1 < d2 under the
interest-scheduler rule (timer advanced by the frame delta each tick, an
update emitted and the timer reset to 0 exactly when the
update_per_distance_check threshold distance/500 + 0.01 is reached), over
any run with nonnegative frame deltas the nearer observer receives at least
as many updates as the farther one. -/
theorem c7_interest_monotone (d1 d2 : ℚ) (δs : List ℚ) (h : d1 < d2)
    (hδs : ∀ δ ∈ δs, 0 ≤ δ) :
    interestCount d2 δs 0 ≤ interestCount d1 δs 0 :=
  (interestAux d1 d2 (le_of_lt h) δs hδs).1 0 0 le_rfl

/-- Witness for C7 at concrete distances 100 < 200 and two ticks of 1 s. -/
theorem c7_interest_monotone_witness :
    interestCount 200 [1, 1] 0 ≤ interestCount 100 [1, 1] 0 :=
  c7_interest_monotone 100 200 [1, 1] (by norm_num) (by decide)

/-! ## C8: the jitter-buffer delay pool -/

theorem map_snd_tick (δ : ℚ) (l : List (ℚ × M)) :
    (l.map fun e => (e.1 + δ, e.2)).map Prod.snd = l.map Prod.snd := by
  induction l with
  | nil => rfl
  | cons e rest ih => simp [ih]

theorem map_snd_zero (arr : List M) :
    (arr.map fun m => ((0 : ℚ), m)).map Prod.snd = arr := by
  induction arr with
  | nil => rfl
  | cons m rest ih => simp [ih]

theorem poolStep_released_ge (θ δ : ℚ) (pool : List (ℚ × M)) (arr : List M) :
    ∀ e ∈ (poolStep θ δ pool arr).2, θ ≤ e.1 := by
  intro e he
  simp only [poolStep, List.mem_filter] at he
  exact of_decide_eq_true he.2

theorem poolStep_kept_lt (θ δ : ℚ) (pool : List (ℚ × M)) (arr : List M) :
    ∀ e ∈ (poolStep θ δ pool arr).1, e.1 < θ := by
  intro e he
  simp only [poolStep, List.mem_filter] at he
  exact of_decide_eq_true he.2

theorem poolStep_perm (θ δ : ℚ) (pool : List (ℚ × M)) (arr : List M) :
    List.Perm ((poolStep θ δ pool arr).1 ++ (poolStep θ δ pool arr).2)
      ((pool ++ arr.map fun m => ((0 : ℚ), m)).map fun e => (e.1 + δ, e.2)) := by
  have hfun : (fun x : ℚ × M => decide (θ ≤ x.1)) = fun x => !decide (x.1 < θ) := by
    funext x
    by_cases h : x.1 < θ
    · simp [h, not_le.mpr h]
    · simp [h, le_of_not_lt h]
  simp only [poolStep, hfun]
  exact List.filter_append_perm _ _

theorem map_snd_ticked (δ : ℚ) (pool : List (ℚ × M)) (arr : List M) :
    ((pool ++ arr.map fun m => ((0 : ℚ), m)).map fun e => (e.1 + δ, e.2)).map Prod.snd =
      pool.map Prod.snd ++ arr := by
  rw [map_snd_tick, List.map_append, map_snd_zero]

theorem poolReleasedTrace_ge (θ : ℚ) (ins : List (PoolIterIn M)) :
    ∀ (pool : List (ℚ × M)), ∀ out ∈ poolReleasedTrace θ ins pool, ∀ e ∈ out, θ ≤ e.1 := by
  induction ins with
  | nil => simp [poolReleasedTrace]
  | cons inp rest ih =>
      intro pool out hout
      simp only [poolReleasedTrace, List.mem_cons] at hout
      rcases hout with rfl | hout
      · exact poolStep_released_ge θ inp.δ pool inp.arrivals
      · exact ih _ out hout

theorem poolRun_lt (θ : ℚ) (ins : List (PoolIterIn M)) :
    ∀ pool : List (ℚ × M), (∀ e ∈ pool, e.1 < θ) →
      ∀ e ∈ poolRun θ ins pool, e.1 < θ := by
  induction ins with
  | nil =>
      intro pool hpool
      simpa [poolRun] using hpool
  | cons inp rest ih =>
      intro pool hpool
      exact ih _ (poolStep_kept_lt θ inp.δ pool inp.arrivals)

theorem poolRun_perm (θ : ℚ) (ins : List (PoolIterIn M)) :
    ∀ pool : List (ℚ × M),
      List.Perm
        ((poolReleasedTrace θ ins pool).flatten.map Prod.snd ++
          (poolRun θ ins pool).map Prod.snd)
        (poolArrivals ins ++ pool.map Prod.snd) := by
  induction ins with
  | nil =>
      intro pool
      simp [poolReleasedTrace, poolRun, poolArrivals]
  | cons inp rest ih =>
      intro pool
      simp only [poolReleasedTrace, poolRun, poolArrivals, List.map_cons,
        List.flatten_cons, List.map_append, List.flatten]
      have hCA : List.Perm
          ((poolStep θ inp.δ pool inp.arrivals).1.map Prod.snd ++
            (poolStep θ inp.δ pool inp.arrivals).2.map Prod.snd)
          (pool.map Prod.snd ++ inp.arrivals) := by
        have h1 := (poolStep_perm θ inp.δ pool inp.arrivals).map Prod.snd
        rw [List.map_append, map_snd_ticked] at h1
        exact h1
      rw [List.append_assoc]
      refine (List.Perm.append_left _ (ih _)).trans ?_
      refine List.perm_append_comm.trans ?_
      rw [List.append_assoc]
      refine (List.Perm.append_left _ hCA).trans ?_
      refine List.perm_append_comm.trans ?_
      rw [List.append_assoc]
      exact List.perm_append_comm

theorem poolReleasedTrace_order (θ : ℚ) (ins : List (PoolIterIn M)) :
    ∀ pool : List (ℚ × M), ∀ out ∈ poolReleasedTrace θ ins pool,
      List.Sublist (out.map Prod.snd) (pool.map Prod.snd ++ poolArrivals ins) := by
  induction ins with
  | nil => simp [poolReleasedTrace]
  | cons inp rest ih =>
      intro pool out hout
      have harr : poolArrivals (inp :: rest) = inp.arrivals ++ poolArrivals rest := by
        simp [poolArrivals]
      simp only [poolReleasedTrace, List.mem_cons] at hout
      have hsub1 : List.Sublist
          ((poolStep θ inp.δ pool inp.arrivals).1.map Prod.snd)
          (pool.map Prod.snd ++ inp.arrivals) := by
        have h0 : List.Sublist (poolStep θ inp.δ pool inp.arrivals).1
            ((pool ++ inp.arrivals.map fun m => ((0 : ℚ), m)).map
              fun e => (e.1 + inp.δ, e.2)) := by
          simp only [poolStep]
          exact List.filter_sublist _
        have h1 := h0.map Prod.snd
        rw [map_snd_ticked] at h1
        exact h1
      have hsub2 : List.Sublist
          ((poolStep θ inp.δ pool inp.arrivals).2.map Prod.snd)
          (pool.map Prod.snd ++ inp.arrivals) := by
        have h0 : List.Sublist (poolStep θ inp.δ pool inp.arrivals).2
            ((pool ++ inp.arrivals.map fun m => ((0 : ℚ), m)).map
              fun e => (e.1 + inp.δ, e.2)) := by
          simp only [poolStep]
          exact List.filter_sublist _
        have h1 := h0.map Prod.snd
        rw [map_snd_ticked] at h1
        exact h1
      rcases hout with rfl | hout
      · rw [harr, ← List.append_assoc]
        exact hsub2.trans (List.sublist_append_left _ _)
      · have hrec := ih _ out hout
        rw [harr, ← List.append_assoc]
        exact hrec.trans (hsub1.append (List.Sublist.refl _))

/-- C8: for the delay pool with either of the fixed thresholds (0.1 s on
the server, 0.2 s on the client), over any run from the empty pool: every
released entry's accumulated delay has reached the threshold, every entry
still held is below it, the released messages together with the final pool
are exactly the arrivals (each inbound message is forwarded exactly once,
never lost, never duplicated), and each iteration's released messages form
a subsequence of the arrivals in arrival order. -/
theorem c8_jitter_buffer (M : Type) (θ : ℚ)
    (_hθ : θ = serverDelayThreshold ∨ θ = clientDelayThreshold) :
    (∀ (ins : List (PoolIterIn M)), ∀ out ∈ poolReleasedTrace θ ins [],
        ∀ e ∈ out, θ ≤ e.1) ∧
    (∀ (ins : List (PoolIterIn M)), ∀ e ∈ poolRun θ ins [], e.1 < θ) ∧
    (∀ ins : List (PoolIterIn M),
        List.Perm
          ((poolReleasedTrace θ ins []).flatten.map Prod.snd ++
            (poolRun θ ins []).map Prod.snd)
          (poolArrivals ins)) ∧
    (∀ (ins : List (PoolIterIn M)), ∀ out ∈ poolReleasedTrace θ ins [],
        List.Sublist (out.map Prod.snd) (poolArrivals ins)) := by
  refine ⟨fun ins => poolReleasedTrace_ge θ ins [],
          fun ins => poolRun_lt θ ins [] (by simp),
          fun ins => ?_, fun ins out hout => ?_⟩
  · have h := poolRun_perm θ ins []
    simpa using h
  · have h := poolReleasedTrace_order θ ins [] out hout
    simpa using h

/-- Witness for C8: a one-iteration run at the server threshold with frame
delta 0.1 s releases its single arrival with accumulated delay 0.1 ≥
threshold. -/
theorem c8_jitter_buffer_witness : serverDelayThreshold ≤ ((0 : ℚ) + 1 / 10) :=
  (c8_jitter_buffer Nat serverDelayThreshold (Or.inl rfl)).1
    [⟨1 / 10, [7]⟩] [((0 : ℚ) + 1 / 10, 7)]
    (by simp [poolReleasedTrace, poolStep, serverDelayThreshold])
    ((0 : ℚ) + 1 / 10, 7) (by simp)

/-! ## C2: encode/decode round trip -/

/-- C2: whenever encode produces the 1000-byte buffer (the message fits the
frame), decode returns the original message, for every well-formed
ServerMessage and ClientMessage; the boundary values of the claim —
identity 0, identity 2^128 − 1 and an empty component list — are listed
explicitly. -/
theorem c2_encode_decode_roundtrip :
    (∀ (m : ServerMessage) (buf : List Nat), wfServerMessage m = true →
        ServerMessage.encode m = some buf → ServerMessage.decode buf = some m) ∧
    (∀ (m : ClientMessage) (buf : List Nat), wfClientMessage m = true →
        ClientMessage.encode m = some buf → ClientMessage.decode buf = some m) ∧
    ServerMessage.encode msgOkZero = some bufOkZero ∧
    ServerMessage.decode bufOkZero = some msgOkZero ∧
    ServerMessage.encode msgOkMax = some bufOkMax ∧
    ServerMessage.decode bufOkMax = some msgOkMax ∧
    ServerMessage.encode msgSpawnEmptyComponents = some bufSpawnEmptyComponents ∧
    ServerMessage.decode bufSpawnEmptyComponents = some msgSpawnEmptyComponents ∧
    ClientMessage.encode ClientMessage.login = some bufClientLogin ∧
    ClientMessage.decode bufClientLogin = some ClientMessage.login := by
  have hS : ∀ (m : ServerMessage) (buf : List Nat), wfServerMessage m = true →
      ServerMessage.encode m = some buf → ServerMessage.decode buf = some m := by
    intro m buf hwf henc
    unfold ServerMessage.encode at henc
    by_cases hlen : (serverBytes m).length ≤ 1000
    · rw [if_pos hlen] at henc
      have hb := Option.some.inj henc
      subst hb
      unfold ServerMessage.decode padTo1000
      rw [parseServerMessage_enc hwf]
      rfl
    · rw [if_neg hlen] at henc
      exact absurd henc (by simp)
  have hC : ∀ (m : ClientMessage) (buf : List Nat), wfClientMessage m = true →
      ClientMessage.encode m = some buf → ClientMessage.decode buf = some m := by
    intro m buf hwf henc
    unfold ClientMessage.encode at henc
    by_cases hlen : (clientBytes m).length ≤ 1000
    · rw [if_pos hlen] at henc
      have hb := Option.some.inj henc
      subst hb
      unfold ClientMessage.decode padTo1000
      rw [parseClientMessage_enc hwf]
      rfl
    · rw [if_neg hlen] at henc
      exact absurd henc (by simp)
  have he1 : ServerMessage.encode msgOkZero = some bufOkZero := rfl
  have he2 : ServerMessage.encode msgOkMax = some bufOkMax := rfl
  have he3 : ServerMessage.encode msgSpawnEmptyComponents = some bufSpawnEmptyComponents := rfl
  have he4 : ClientMessage.encode ClientMessage.login = some bufClientLogin := rfl
  exact ⟨hS, hC, he1, hS _ _ (by decide) he1, he2, hS _ _ (by decide) he2,
         he3, hS _ _ (by decide) he3, he4, hC _ _ (by decide) he4⟩

/-- Witness for C2 at the maximum 128-bit identity. -/
theorem c2_encode_decode_roundtrip_witness :
    wfServerMessage msgOkMax = true ∧ ServerMessage.decode bufOkMax = some msgOkMax :=
  ⟨by decide, c2_encode_decode_roundtrip.1 msgOkMax bufOkMax (by decide) rfl⟩

/-! ## C9: decoder totality and soundness -/

theorem parseF32_bound : ParserBound parseF32 wfF32 := by
  intro bs a r hbs h
  unfold parseF32 at h
  obtain ⟨hlt, hr⟩ := readLE_bound hbs h
  refine ⟨?_, hr⟩
  simp only [wfF32, decide_eq_true_eq]
  norm_num at hlt
  omega

theorem parseMyVec3_bound : ParserBound parseMyVec3 wfMyVec3 := by
  intro bs a r hbs h
  simp only [parseMyVec3, Option.bind_eq_some, Option.map_eq_some'] at h
  obtain ⟨⟨x, bs1⟩, h1, ⟨y, bs2⟩, h2, ⟨z, bs3⟩, h3, heq⟩ := h
  obtain ⟨hx, hb1⟩ := parseF32_bound bs x bs1 hbs h1
  obtain ⟨hy, hb2⟩ := parseF32_bound bs1 y bs2 hb1 h2
  obtain ⟨hz, hb3⟩ := parseF32_bound bs2 z bs3 hb2 h3
  simp only [Prod.mk.injEq] at heq
  obtain ⟨rfl, rfl⟩ := heq
  exact ⟨by simp [wfMyVec3, hx, hy, hz], hb3⟩

theorem parseMyQuat_bound : ParserBound parseMyQuat wfMyQuat := by
  intro bs a r hbs h
  simp only [parseMyQuat, Option.bind_eq_some, Option.map_eq_some'] at h
  obtain ⟨⟨x, bs1⟩, h1, ⟨y, bs2⟩, h2, ⟨z, bs3⟩, h3, ⟨w, bs4⟩, h4, heq⟩ := h
  obtain ⟨hx, hb1⟩ := parseF32_bound bs x bs1 hbs h1
  obtain ⟨hy, hb2⟩ := parseF32_bound bs1 y bs2 hb1 h2
  obtain ⟨hz, hb3⟩ := parseF32_bound bs2 z bs3 hb2 h3
  obtain ⟨hw, hb4⟩ := parseF32_bound bs3 w bs4 hb3 h4
  simp only [Prod.mk.injEq] at heq
  obtain ⟨rfl, rfl⟩ := heq
  exact ⟨by simp [wfMyQuat, hx, hy, hz, hw], hb4⟩

theorem parseMyVec2_bound : ParserBound parseMyVec2 wfMyVec2 := by
  intro bs a r hbs h
  simp only [parseMyVec2, Option.bind_eq_some, Option.map_eq_some'] at h
  obtain ⟨⟨x, bs1⟩, h1, ⟨y, bs2⟩, h2, heq⟩ := h
  obtain ⟨hx, hb1⟩ := parseF32_bound bs x bs1 hbs h1
  obtain ⟨hy, hb2⟩ := parseF32_bound bs1 y bs2 hb1 h2
  simp only [Prod.mk.injEq] at heq
  obtain ⟨rfl, rfl⟩ := heq
  exact ⟨by simp [wfMyVec2, hx, hy], hb2⟩

theorem parsePositionPackage_bound : ParserBound parsePositionPackage wfPositionPackage := by
  intro bs a r hbs h
  simp only [parsePositionPackage, Option.bind_eq_some, Option.map_eq_some'] at h
  obtain ⟨⟨i, bs1⟩, h1, ⟨pos, bs2⟩, h2, ⟨rot, bs3⟩, h3, heq⟩ := h
  obtain ⟨hi, hb1⟩ := ureadU128_bound hbs h1
  obtain ⟨hpos, hb2⟩ := parseMyVec3_bound bs1 pos bs2 hb1 h2
  obtain ⟨hrot, hb3⟩ := parseMyQuat_bound bs2 rot bs3 hb2 h3
  simp only [Prod.mk.injEq] at heq
  obtain ⟨rfl, rfl⟩ := heq
  exact ⟨by simp [wfPositionPackage, wfU128, hi, hpos, hrot], hb3⟩

theorem parsePlayerLookPackage_bound :
    ParserBound parsePlayerLookPackage wfPlayerLookPackage := by
  intro bs a r hbs h
  simp only [parsePlayerLookPackage, Option.bind_eq_some, Option.map_eq_some'] at h
  obtain ⟨⟨i, bs1⟩, h1, ⟨rot, bs2⟩, h2, heq⟩ := h
  obtain ⟨hi, hb1⟩ := ureadU128_bound hbs h1
  obtain ⟨hrot, hb2⟩ := parseMyQuat_bound bs1 rot bs2 hb1 h2
  simp only [Prod.mk.injEq] at heq
  obtain ⟨rfl, rfl⟩ := heq
  exact ⟨by simp [wfPlayerLookPackage, wfU128, hi, hrot], hb2⟩

theorem parseVelocityPackage_bound : ParserBound parseVelocityPackage wfVelocityPackage := by
  intro bs a r hbs h
  simp only [parseVelocityPackage, Option.bind_eq_some, Option.map_eq_some'] at h
  obtain ⟨⟨i, bs1⟩, h1, ⟨v, bs2⟩, h2, heq⟩ := h
  obtain ⟨hi, hb1⟩ := ureadU128_bound hbs h1
  obtain ⟨hv, hb2⟩ := parseMyVec3_bound bs1 v bs2 hb1 h2
  simp only [Prod.mk.injEq] at heq
  obtain ⟨rfl, rfl⟩ := heq
  exact ⟨by simp [wfVelocityPackage, wfU128, hi, hv], hb2⟩

theorem parseHealthPackage_bound : ParserBound parseHealthPackage wfHealthPackage := by
  intro bs a r hbs h
  simp only [parseHealthPackage, Option.bind_eq_some, Option.map_eq_some'] at h
  obtain ⟨⟨i, bs1⟩, h1, ⟨hv, bs2⟩, h2, heq⟩ := h
  obtain ⟨hi, hb1⟩ := ureadU128_bound hbs h1
  obtain ⟨hh, hb2⟩ := parseF32_bound bs1 hv bs2 hb1 h2
  simp only [Prod.mk.injEq] at heq
  obtain ⟨rfl, rfl⟩ := heq
  exact ⟨by simp [wfHealthPackage, wfU128, hi, hh], hb2⟩

theorem parseN_bound {p : List Nat → Option (α × List Nat)} {wf : α → Bool}
    (hp : ParserBound p wf) :
    ∀ (n : Nat) (bs : List Nat) (l : List α) (r : List Nat),
      (∀ b ∈ bs, b < 256) → parseN p n bs = some (l, r) →
      (l.length = n ∧ l.all wf = true) ∧ ∀ b ∈ r, b < 256 := by
  intro n
  induction n with
  | zero =>
      intro bs l r hbs h
      simp only [parseN, Option.some.injEq, Prod.mk.injEq] at h
      obtain ⟨rfl, rfl⟩ := h
      exact ⟨⟨rfl, rfl⟩, hbs⟩
  | succ n ih =>
      intro bs l r hbs h
      simp only [parseN, Option.bind_eq_some, Option.map_eq_some'] at h
      obtain ⟨⟨a, bs1⟩, h1, ⟨l', r'⟩, h2, heq⟩ := h
      obtain ⟨hwa, hb1⟩ := hp bs a bs1 hbs h1
      obtain ⟨⟨hlen, hall⟩, hbr⟩ := ih bs1 l' r' hb1 h2
      simp only [Prod.mk.injEq] at heq
      obtain ⟨rfl, rfl⟩ := heq
      exact ⟨⟨by simp [hlen], by simp [List.all_cons, hwa, hall]⟩, hbr⟩

theorem parseListWith_bound {p : List Nat → Option (α × List Nat)} {wf : α → Bool}
    (hp : ParserBound p wf) : ParserBound (parseListWith p) (wfListWith wf) := by
  intro bs a r hbs h
  simp only [parseListWith, Option.bind_eq_some] at h
  obtain ⟨⟨n, bs1⟩, h1, h2⟩ := h
  obtain ⟨hn, hb1⟩ := ureadU64_bound hbs h1
  obtain ⟨⟨hlen, hall⟩, hbr⟩ := parseN_bound hp n bs1 a r hb1 h2
  refine ⟨?_, hbr⟩
  simp only [wfListWith, hall, Bool.and_true, decide_eq_true_eq, hlen]
  omega

theorem parseNetComponent_bound : ParserBound parseNetComponent wfNetComponent := by
  intro bs a r hbs h
  simp only [parseNetComponent, Option.bind_eq_some] at h
  obtain ⟨⟨tag, bs1⟩, h1, h2⟩ := h
  obtain ⟨htag, hb1⟩ := ureadU32_bound hbs h1
  split at h2
  · simp only [Option.map_eq_some'] at h2
    obtain ⟨⟨v, bs2⟩, hv, heq⟩ := h2
    obtain ⟨hwv, hb2⟩ := parseMyVec3_bound bs1 v bs2 hb1 hv
    simp only [Prod.mk.injEq] at heq
    obtain ⟨rfl, rfl⟩ := heq
    exact ⟨by simp [wfNetComponent, hwv], hb2⟩
  · simp only [Option.bind_eq_some, Option.map_eq_some'] at h2
    obtain ⟨⟨t, bs2⟩, ht, ⟨rq, bs3⟩, hr, ⟨s, bs4⟩, hs, heq⟩ := h2
    obtain ⟨hwt, hb2⟩ := parseMyVec3_bound bs1 t bs2 hb1 ht
    obtain ⟨hwr, hb3⟩ := parseMyQuat_bound bs2 rq bs3 hb2 hr
    obtain ⟨hws, hb4⟩ := parseMyVec3_bound bs3 s bs4 hb3 hs
    simp only [Prod.mk.injEq] at heq
    obtain ⟨rfl, rfl⟩ := heq
    exact ⟨by simp [wfNetComponent, hwt, hwr, hws], hb4⟩
  · simp only [Option.map_eq_some'] at h2
    obtain ⟨⟨v, bs2⟩, hv, heq⟩ := h2
    obtain ⟨hwv, hb2⟩ := parseF32_bound bs1 v bs2 hb1 hv
    simp only [Prod.mk.injEq] at heq
    obtain ⟨rfl, rfl⟩ := heq
    exact ⟨by simp [wfNetComponent, hwv], hb2⟩
  · simp only [Option.map_eq_some'] at h2
    obtain ⟨⟨v, bs2⟩, hv, heq⟩ := h2
    obtain ⟨hwv, hb2⟩ := parseF32_bound bs1 v bs2 hb1 hv
    simp only [Prod.mk.injEq] at heq
    obtain ⟨rfl, rfl⟩ := heq
    exact ⟨by simp [wfNetComponent, hwv], hb2⟩
  · simp only [Option.bind_eq_some, Option.map_eq_some'] at h2
    obtain ⟨⟨v1, bs2⟩, hv1, ⟨v2, bs3⟩, hv2, heq⟩ := h2
    obtain ⟨hw1, hb2⟩ := parseF32_bound bs1 v1 bs2 hb1 hv1
    obtain ⟨hw2, hb3⟩ := parseF32_bound bs2 v2 bs3 hb2 hv2
    simp only [Prod.mk.injEq] at heq
    obtain ⟨rfl, rfl⟩ := heq
    exact ⟨by simp [wfNetComponent, hw1, hw2], hb3⟩
  · simp only [Option.bind_eq_some, Option.map_eq_some'] at h2
    obtain ⟨⟨v1, bs2⟩, hv1, ⟨v2, bs3⟩, hv2, heq⟩ := h2
    obtain ⟨hw1, hb2⟩ := parseF32_bound bs1 v1 bs2 hb1 hv1
    obtain ⟨hw2, hb3⟩ := parseF32_bound bs2 v2 bs3 hb2 hv2
    simp only [Prod.mk.injEq] at heq
    obtain ⟨rfl, rfl⟩ := heq
    exact ⟨by simp [wfNetComponent, hw1, hw2], hb3⟩
  · simp only [Option.bind_eq_some, Option.map_eq_some'] at h2
    obtain ⟨⟨v1, bs2⟩, hv1, ⟨v2, bs3⟩, hv2, ⟨v3, bs4⟩, hv3, heq⟩ := h2
    obtain ⟨hw1, hb2⟩ := parseF32_bound bs1 v1 bs2 hb1 hv1
    obtain ⟨hw2, hb3⟩ := parseF32_bound bs2 v2 bs3 hb2 hv2
    obtain ⟨hw3, hb4⟩ := parseF32_bound bs3 v3 bs4 hb3 hv3
    simp only [Prod.mk.injEq] at heq
    obtain ⟨rfl, rfl⟩ := heq
    exact ⟨by simp [wfNetComponent, hw1, hw2, hw3], hb4⟩
  · simp only [Option.map_eq_some'] at h2
    obtain ⟨⟨v, bs2⟩, hv, heq⟩ := h2
    obtain ⟨hwv, hb2⟩ := parseF32_bound bs1 v bs2 hb1 hv
    simp only [Prod.mk.injEq] at heq
    obtain ⟨rfl, rfl⟩ := heq
    exact ⟨by simp [wfNetComponent, hwv], hb2⟩
  · simp only [Option.some.injEq, Prod.mk.injEq] at h2
    obtain ⟨rfl, rfl⟩ := h2
    exact ⟨by simp [wfNetComponent], hb1⟩
  · simp only [Option.some.injEq, Prod.mk.injEq] at h2
    obtain ⟨rfl, rfl⟩ := h2
    exact ⟨by simp [wfNetComponent], hb1⟩
  · simp only [Option.map_eq_some'] at h2
    obtain ⟨⟨v, bs2⟩, hv, heq⟩ := h2
    obtain ⟨hwv, hb2⟩ := parseF32_bound bs1 v bs2 hb1 hv
    simp only [Prod.mk.injEq] at heq
    obtain ⟨rfl, rfl⟩ := heq
    exact ⟨by simp [wfNetComponent, hwv], hb2⟩
  · simp only [Option.map_eq_some'] at h2
    obtain ⟨⟨v, bs2⟩, hv, heq⟩ := h2
    obtain ⟨hwv, hb2⟩ := parseF32_bound bs1 v bs2 hb1 hv
    simp only [Prod.mk.injEq] at heq
    obtain ⟨rfl, rfl⟩ := heq
    exact ⟨by simp [wfNetComponent, hwv], hb2⟩
  · simp at h2

theorem parseEntityPackage_bound : ParserBound parseEntityPackage wfEntityPackage := by
  intro bs a r hbs h
  simp only [parseEntityPackage, Option.bind_eq_some, Option.map_eq_some'] at h
  obtain ⟨⟨i, bs1⟩, h1, ⟨cs, bs2⟩, h2, heq⟩ := h
  obtain ⟨hi, hb1⟩ := ureadU128_bound hbs h1
  obtain ⟨hcs, hb2⟩ := parseListWith_bound parseNetComponent_bound bs1 cs bs2 hb1 h2
  simp only [Prod.mk.injEq] at heq
  obtain ⟨rfl, rfl⟩ := heq
  exact ⟨by simp [wfEntityPackage, wfU128, hi, hcs], hb2⟩

theorem parseServerInner_bound : ParserBound parseServerInner wfServerInner := by
  intro bs a r hbs h
  simp only [parseServerInner, Option.bind_eq_some] at h
  obtain ⟨⟨tag, bs1⟩, h1, h2⟩ := h
  obtain ⟨htag, hb1⟩ := ureadU32_bound hbs h1
  split at h2
  · simp only [Option.map_eq_some'] at h2
    obtain ⟨⟨i, bs2⟩, hi, heq⟩ := h2
    obtain ⟨hwi, hb2⟩ := ureadU128_bound hb1 hi
    simp only [Prod.mk.injEq] at heq
    obtain ⟨rfl, rfl⟩ := heq
    exact ⟨by simp [wfServerInner, wfU128, hwi], hb2⟩
  · simp only [Option.map_eq_some'] at h2
    obtain ⟨⟨ps, bs2⟩, hps, heq⟩ := h2
    obtain ⟨hw, hb2⟩ := parseListWith_bound parseEntityPackage_bound bs1 ps bs2 hb1 hps
    simp only [Prod.mk.injEq] at heq
    obtain ⟨rfl, rfl⟩ := heq
    exact ⟨by simp [wfServerInner, hw], hb2⟩
  · simp only [Option.map_eq_some'] at h2
    obtain ⟨⟨ps, bs2⟩, hps, heq⟩ := h2
    obtain ⟨hw, hb2⟩ := parseListWith_bound parseEntityPackage_bound bs1 ps bs2 hb1 hps
    simp only [Prod.mk.injEq] at heq
    obtain ⟨rfl, rfl⟩ := heq
    exact ⟨by simp [wfServerInner, hw], hb2⟩
  · simp only [Option.map_eq_some'] at h2
    obtain ⟨⟨ps, bs2⟩, hps, heq⟩ := h2
    obtain ⟨hw, hb2⟩ := parseListWith_bound parsePositionPackage_bound bs1 ps bs2 hb1 hps
    simp only [Prod.mk.injEq] at heq
    obtain ⟨rfl, rfl⟩ := heq
    exact ⟨by simp [wfServerInner, hw], hb2⟩
  · simp only [Option.map_eq_some'] at h2
    obtain ⟨⟨ps, bs2⟩, hps, heq⟩ := h2
    obtain ⟨hw, hb2⟩ := parseListWith_bound parsePlayerLookPackage_bound bs1 ps bs2 hb1 hps
    simp only [Prod.mk.injEq] at heq
    obtain ⟨rfl, rfl⟩ := heq
    exact ⟨by simp [wfServerInner, hw], hb2⟩
  · simp only [Option.map_eq_some'] at h2
    obtain ⟨⟨ps, bs2⟩, hps, heq⟩ := h2
    obtain ⟨hw, hb2⟩ := parseListWith_bound parseVelocityPackage_bound bs1 ps bs2 hb1 hps
    simp only [Prod.mk.injEq] at heq
    obtain ⟨rfl, rfl⟩ := heq
    exact ⟨by simp [wfServerInner, hw], hb2⟩
  · simp only [Option.map_eq_some'] at h2
    obtain ⟨⟨ps, bs2⟩, hps, heq⟩ := h2
    obtain ⟨hw, hb2⟩ := parseListWith_bound parseHealthPackage_bound bs1 ps bs2 hb1 hps
    simp only [Prod.mk.injEq] at heq
    obtain ⟨rfl, rfl⟩ := heq
    exact ⟨by simp [wfServerInner, hw], hb2⟩
  · simp only [Option.map_eq_some'] at h2
    obtain ⟨⟨i, bs2⟩, hi, heq⟩ := h2
    obtain ⟨hwi, hb2⟩ := ureadU64_bound hb1 hi
    simp only [Prod.mk.injEq] at heq
    obtain ⟨rfl, rfl⟩ := heq
    exact ⟨by simp [wfServerInner, wfU64, hwi], hb2⟩
  · simp at h2

theorem parseServerMessage_bound : ParserBound parseServerMessage wfServerMessage := by
  intro bs a r hbs h
  simp only [parseServerMessage, Option.bind_eq_some, Option.map_eq_some'] at h
  obtain ⟨⟨rel, bs1⟩, h1, ⟨inner, bs2⟩, h2, heq⟩ := h
  obtain ⟨hrel, hb1⟩ := ureadU64_bound hbs h1
  obtain ⟨hinner, hb2⟩ := parseServerInner_bound bs1 inner bs2 hb1 h2
  simp only [Prod.mk.injEq] at heq
  obtain ⟨rfl, rfl⟩ := heq
  exact ⟨by simp [wfServerMessage, wfU64, hrel, hinner], hb2⟩

theorem parseClientInner_bound : ParserBound parseClientInner wfClientInner := by
  intro bs a r hbs h
  simp only [parseClientInner, Option.bind_eq_some] at h
  obtain ⟨⟨tag, bs1⟩, h1, h2⟩ := h
  obtain ⟨htag, hb1⟩ := ureadU32_bound hbs h1
  split at h2
  · simp only [Option.some.injEq, Prod.mk.injEq] at h2
    obtain ⟨rfl, rfl⟩ := h2
    exact ⟨by simp [wfClientInner], hb1⟩
  · simp only [Option.bind_eq_some, Option.map_eq_some'] at h2
    obtain ⟨⟨i, bs2⟩, hi, ⟨v, bs3⟩, hv, heq⟩ := h2
    obtain ⟨hwi, hb2⟩ := ureadU128_bound hb1 hi
    obtain ⟨hwv, hb3⟩ := parseMyVec2_bound bs2 v bs3 hb2 hv
    simp only [Prod.mk.injEq] at heq
    obtain ⟨rfl, rfl⟩ := heq
    exact ⟨by simp [wfClientInner, wfU128, hwi, hwv], hb3⟩
  · simp only [Option.bind_eq_some, Option.map_eq_some'] at h2
    obtain ⟨⟨i, bs2⟩, hi, ⟨q, bs3⟩, hq, heq⟩ := h2
    obtain ⟨hwi, hb2⟩ := ureadU128_bound hb1 hi
    obtain ⟨hwq, hb3⟩ := parseMyQuat_bound bs2 q bs3 hb2 hq
    simp only [Prod.mk.injEq] at heq
    obtain ⟨rfl, rfl⟩ := heq
    exact ⟨by simp [wfClientInner, wfU128, hwi, hwq], hb3⟩
  · simp only [Option.map_eq_some'] at h2
    obtain ⟨⟨i, bs2⟩, hi, heq⟩ := h2
    obtain ⟨hwi, hb2⟩ := ureadU64_bound hb1 hi
    simp only [Prod.mk.injEq] at heq
    obtain ⟨rfl, rfl⟩ := heq
    exact ⟨by simp [wfClientInner, wfU64, hwi], hb2⟩
  · simp only [Option.map_eq_some'] at h2
    obtain ⟨⟨i, bs2⟩, hi, heq⟩ := h2
    obtain ⟨hwi, hb2⟩ := ureadU128_bound hb1 hi
    simp only [Prod.mk.injEq] at heq
    obtain ⟨rfl, rfl⟩ := heq
    exact ⟨by simp [wfClientInner, wfU128, hwi], hb2⟩
  · simp only [Option.bind_eq_some, Option.map_eq_some'] at h2
    obtain ⟨⟨i, bs2⟩, hi, ⟨d, bs3⟩, hd, heq⟩ := h2
    obtain ⟨hwi, hb2⟩ := ureadU128_bound hb1 hi
    obtain ⟨hwd, hb3⟩ := parseMyVec3_bound bs2 d bs3 hb2 hd
    simp only [Prod.mk.injEq] at heq
    obtain ⟨rfl, rfl⟩ := heq
    exact ⟨by simp [wfClientInner, wfU128, hwi, hwd], hb3⟩
  · simp at h2

theorem parseClientMessage_bound : ParserBound parseClientMessage wfClientMessage := by
  intro bs a r hbs h
  simp only [parseClientMessage, Option.bind_eq_some, Option.map_eq_some'] at h
  obtain ⟨⟨rel, bs1⟩, h1, ⟨inner, bs2⟩, h2, heq⟩ := h
  obtain ⟨hrel, hb1⟩ := ureadU64_bound hbs h1
  obtain ⟨hinner, hb2⟩ := parseClientInner_bound bs1 inner bs2 hb1 h2
  simp only [Prod.mk.injEq] at heq
  obtain ⟨rfl, rfl⟩ := heq
  exact ⟨by simp [wfClientMessage, wfU64, hrel, hinner], hb2⟩

/-- C9: the decoders are total functions into Option — the bincode error
paths all return none.  On any byte-valued input a decode success yields
only a message the Rust types can represent, every input either decodes to
none or to some message, and concrete truncated and malformed inputs
(empty buffer, missing inner message, unknown discriminant, invalid
integer escape, truncated identity) all decode to none rather than
failing. -/
theorem c9_decode_total :
    (∀ (bs : List Nat) (m : ServerMessage), (∀ b ∈ bs, b < 256) →
        ServerMessage.decode bs = some m → wfServerMessage m = true) ∧
    (∀ (bs : List Nat) (m : ClientMessage), (∀ b ∈ bs, b < 256) →
        ClientMessage.decode bs = some m → wfClientMessage m = true) ∧
    (∀ bs : List Nat, ServerMessage.decode bs = none ∨
        ∃ m, ServerMessage.decode bs = some m) ∧
    (∀ bs : List Nat, ClientMessage.decode bs = none ∨
        ∃ m, ClientMessage.decode bs = some m) ∧
    ServerMessage.decode [] = none ∧
    ClientMessage.decode [] = none ∧
    ServerMessage.decode [0] = none ∧
    ClientMessage.decode [0] = none ∧
    ServerMessage.decode [0, 8] = none ∧
    ClientMessage.decode [0, 6] = none ∧
    ServerMessage.decode [255] = none ∧
    ClientMessage.decode [255] = none ∧
    ServerMessage.decode (bufOkMax.take 5) = none ∧
    ClientMessage.decode [0, 1, 254] = none := by
  refine ⟨?_, ?_, ?_, ?_, by decide, by decide, by decide, by decide, by decide,
          by decide, by decide, by decide, by decide, by decide⟩
  · intro bs m hbs h
    unfold ServerMessage.decode at h
    simp only [Option.map_eq_some'] at h
    obtain ⟨⟨m', r⟩, h1, h2⟩ := h
    have hm : m' = m := h2
    subst hm
    exact (parseServerMessage_bound bs m' r hbs h1).1
  · intro bs m hbs h
    unfold ClientMessage.decode at h
    simp only [Option.map_eq_some'] at h
    obtain ⟨⟨m', r⟩, h1, h2⟩ := h
    have hm : m' = m := h2
    subst hm
    exact (parseClientMessage_bound bs m' r hbs h1).1
  · intro bs
    cases h : ServerMessage.decode bs with
    | none => exact Or.inl rfl
    | some m => exact Or.inr ⟨m, rfl⟩
  · intro bs
    cases h : ClientMessage.decode bs with
    | none => exact Or.inl rfl
    | some m => exact Or.inr ⟨m, rfl⟩

theorem padTo1000_bytes_lt (bs : List Nat) (h : ∀ b ∈ bs, b < 256) :
    ∀ b ∈ padTo1000 bs, b < 256 := by
  intro b hb
  simp only [padTo1000, List.mem_append, List.mem_replicate] at hb
  rcases hb with hb | hb
  · exact h b hb
  · rw [hb.2]
    norm_num

theorem decode_bufOkZero : ServerMessage.decode bufOkZero = some msgOkZero := by
  unfold bufOkZero ServerMessage.decode padTo1000
  rw [parseServerMessage_enc (by decide)]
  rfl

/-- Witness for C9: the concrete buffer of msgOkZero is byte-valued and its
decode result is well-formed. -/
theorem c9_decode_total_witness :
    (∀ b ∈ bufOkZero, b < 256) ∧ wfServerMessage msgOkZero = true :=
  ⟨padTo1000_bytes_lt (serverBytes msgOkZero) (by decide),
   c9_decode_total.1 bufOkZero msgOkZero
     (padTo1000_bytes_lt (serverBytes msgOkZero) (by decide)) decode_bufOkZero⟩

/-! ## C1: the reliability layer -/

theorem alGet_eq_of_mem_nodup {l : List (Nat × β)} (hnd : (l.map Prod.fst).Nodup)
    {k : Nat} {v : β} (h : (k, v) ∈ l) : alGet l k = some v := by
  induction l with
  | nil => simp at h
  | cons q rest ih =>
      simp only [List.map_cons, List.nodup_cons] at hnd
      rcases List.mem_cons.mp h with h | h
      · rw [← h]
        simp [alGet]
      · have hq : q.1 ≠ k := by
          intro hqk
          exact hnd.1 (hqk ▸ (List.mem_map.mpr ⟨(k, v), h, rfl⟩))
        simp only [alGet, if_neg hq]
        exact ih hnd.2 h

theorem alGet_resend_map (now : ℚ) (l : List (Nat × ReliablePackage B A)) (s : Nat) :
    alGet (l.map fun p =>
        if (300 : ℚ) < now - p.2.lastSend then (p.1, { p.2 with lastSend := now }) else p) s
      = (alGet l s).map fun q =>
          if (300 : ℚ) < now - q.lastSend then { q with lastSend := now } else q := by
  induction l with
  | nil => rfl
  | cons p rest ih =>
      by_cases hk : p.1 = s
      · by_cases hc : (300 : ℚ) < now - p.2.lastSend
        · simp [alGet, hk, hc]
        · simp [alGet, hk, hc]
      · by_cases hc : (300 : ℚ) < now - p.2.lastSend
        · simpa [alGet, hk, hc] using ih
        · simpa [alGet, hk, hc] using ih

theorem resendPhase_out_origin (now : ℚ) (st : NetThread B A) {q : Nat × B × A}
    (h : q ∈ (resendPhase now st).2) :
    ∃ p ∈ st.reliablePackages, q.1 = p.1 ∧
      (300 : ℚ) < now - p.2.lastSend ∧ q = (p.1, p.2.bytes, p.2.addr) := by
  simp only [resendPhase, List.mem_map, List.mem_filter] at h
  obtain ⟨p, ⟨hp, hc⟩, hq⟩ := h
  exact ⟨p, hp, by rw [← hq], of_decide_eq_true hc, hq.symm⟩

theorem sendOne_state_cases (encode : NetMsg α → B) (now : ℚ) (st : NetThread B A)
    (addr : A) (m : NetMsg α) :
    (sendOne encode now st addr m).1 = st ∨
    (sendOne encode now st addr m).1 =
      { reliableCounter := st.reliableCounter + 1,
        reliablePackages := alInsert st.reliablePackages st.reliableCounter
          ⟨(sendOne encode now st addr m).2, addr, now⟩ } := by
  by_cases h1 : 0 < m.reliable
  · by_cases h2 : 0 < st.reliableCounter
    · right
      simp [sendOne, h1, h2]
    · left
      simp [sendOne, h1, h2]
  · left
    simp [sendOne, h1]

theorem sendOne_preserves (encode : NetMsg α → B) (now : ℚ) {st : NetThread B A}
    (addr : A) (m : NetMsg α) {S : Nat}
    (hkb : KeysBelowCounter st) (hnp : NotPending S st) (hS : S < st.reliableCounter) :
    KeysBelowCounter (sendOne encode now st addr m).1 ∧
    NotPending S (sendOne encode now st addr m).1 ∧
    S < (sendOne encode now st addr m).1.reliableCounter := by
  rcases sendOne_state_cases encode now st addr m with h | h
  · rw [h]
    exact ⟨hkb, hnp, hS⟩
  · rw [h]
    refine ⟨?_, ?_, ?_⟩
    · intro p hp
      show p.1 < st.reliableCounter + 1
      rcases mem_alInsert hp with hp | hp
      · have := hkb p hp
        omega
      · rw [hp]
        simp
    · intro p hp
      show p.1 ≠ S
      rcases mem_alInsert hp with hp | hp
      · exact hnp p hp
      · rw [hp]
        show st.reliableCounter ≠ S
        omega
    · show S < st.reliableCounter + 1
      omega

theorem outgoingPhase_preserves (encode : NetMsg α → B) (now : ℚ) {S : Nat} :
    ∀ (out : List (A × NetMsg α)) (st : NetThread B A),
      KeysBelowCounter st → NotPending S st → S < st.reliableCounter →
      KeysBelowCounter (outgoingPhase encode now st out).1 ∧
      NotPending S (outgoingPhase encode now st out).1 ∧
      S < (outgoingPhase encode now st out).1.reliableCounter := by
  intro out
  induction out with
  | nil =>
      intro st h1 h2 h3
      exact ⟨h1, h2, h3⟩
  | cons am rest ih =>
      intro st h1 h2 h3
      obtain ⟨g1, g2, g3⟩ := sendOne_preserves encode now am.1 am.2 h1 h2 h3
      simpa [outgoingPhase] using ih _ g1 g2 g3

theorem receivePhase_preserves {S : Nat} :
    ∀ (inb : List InboundMsg) (st : NetThread B A),
      KeysBelowCounter st → NotPending S st → S < st.reliableCounter →
      KeysBelowCounter (receivePhase st inb) ∧
      NotPending S (receivePhase st inb) ∧
      S < (receivePhase st inb).reliableCounter := by
  intro inb
  induction inb with
  | nil =>
      intro st h1 h2 h3
      exact ⟨h1, h2, h3⟩
  | cons i rest ih =>
      intro st h1 h2 h3
      cases i with
      | confirm s =>
          refine ih _ ?_ ?_ h3
          · intro p hp
            exact h1 p (mem_alRemove hp).1
          · intro p hp
            exact h2 p (mem_alRemove hp).1
      | other => exact ih _ h1 h2 h3

theorem resendPhase_preserves (now : ℚ) {st : NetThread B A} {S : Nat}
    (h1 : KeysBelowCounter st) (h2 : NotPending S st) (h3 : S < st.reliableCounter) :
    KeysBelowCounter (resendPhase now st).1 ∧
    NotPending S (resendPhase now st).1 ∧
    S < (resendPhase now st).1.reliableCounter := by
  refine ⟨?_, ?_, h3⟩
  · intro p hp
    simp only [resendPhase, List.mem_map] at hp
    obtain ⟨q, hq, hpq⟩ := hp
    have hk : p.1 = q.1 := by
      rw [← hpq]
      by_cases hc : (300 : ℚ) < now - q.2.lastSend <;> simp [hc]
    rw [hk]
    exact h1 q hq
  · intro p hp
    simp only [resendPhase, List.mem_map] at hp
    obtain ⟨q, hq, hpq⟩ := hp
    have hk : p.1 = q.1 := by
      rw [← hpq]
      by_cases hc : (300 : ℚ) < now - q.2.lastSend <;> simp [hc]
    rw [hk]
    exact h2 q hq

theorem netIter_preserves (encode : NetMsg α → B) (inp : NetIterIn α A)
    {st : NetThread B A} {S : Nat}
    (h1 : KeysBelowCounter st) (h2 : NotPending S st) (h3 : S < st.reliableCounter) :
    (KeysBelowCounter (netIter encode inp st).1 ∧
     NotPending S (netIter encode inp st).1 ∧
     S < (netIter encode inp st).1.reliableCounter) ∧
    ∀ q ∈ (netIter encode inp st).2.1, q.1 ≠ S := by
  obtain ⟨r1, r2, r3⟩ := resendPhase_preserves inp.now h1 h2 h3
  obtain ⟨o1, o2, o3⟩ := outgoingPhase_preserves encode inp.now inp.outgoing _ r1 r2 r3
  obtain ⟨v1, v2, v3⟩ := receivePhase_preserves inp.inbound _ o1 o2 o3
  refine ⟨⟨v1, v2, v3⟩, ?_⟩
  intro q hq
  obtain ⟨p, hp, hk, _, _⟩ := resendPhase_out_origin inp.now st hq
  rw [hk]
  exact h2 p hp

/-- C1: the reliability protocol of the network thread.  (1) A message
requested reliable is assigned the counter's sequence number; the exact
transmitted encoded buffer is stored in the pending table under it with
timestamp now, and the counter advances.  (2) A pending entry is
retransmitted byte-for-byte with its timestamp refreshed on an iteration
exactly when more than 300 ms have elapsed since its last send, and is kept
unchanged otherwise.  (3) Processing Confirm(s) removes the entry and is a
no-op when s is absent.  (4) Once s is absent and below the counter (as
after a Confirm removed it), no later iteration resends s or readmits it to
the pending table. -/
theorem c1_reliable_resend_protocol {α B A : Type} (encode : NetMsg α → B) :
    (∀ (now : ℚ) (st : NetThread B A) (addr : A) (m : NetMsg α),
        0 < m.reliable → 0 < st.reliableCounter →
        sendOne encode now st addr m =
          ({ reliableCounter := st.reliableCounter + 1,
             reliablePackages := alInsert st.reliablePackages st.reliableCounter
               ⟨encode { m with reliable := st.reliableCounter }, addr, now⟩ },
           encode { m with reliable := st.reliableCounter })) ∧
    (∀ (now : ℚ) (st : NetThread B A) (s : Nat) (p : ReliablePackage B A),
        (st.reliablePackages.map Prod.fst).Nodup →
        alGet st.reliablePackages s = some p →
        ((300 < now - p.lastSend →
            (s, p.bytes, p.addr) ∈ (resendPhase now st).2 ∧
            alGet (resendPhase now st).1.reliablePackages s =
              some ⟨p.bytes, p.addr, now⟩) ∧
         (¬ 300 < now - p.lastSend →
            (∀ q ∈ (resendPhase now st).2, q.1 ≠ s) ∧
            alGet (resendPhase now st).1.reliablePackages s = some p))) ∧
    (∀ (st : NetThread B A) (s : Nat),
        receivePhase st [.confirm s] =
          { st with reliablePackages := alRemove st.reliablePackages s } ∧
        (NotPending s st → receivePhase st [.confirm s] = st)) ∧
    (∀ (inputs : List (NetIterIn α A)) (st : NetThread B A) (S : Nat),
        KeysBelowCounter st → NotPending S st → S < st.reliableCounter →
        NotPending S (netRun encode inputs st) ∧
        ∀ out ∈ netResendTrace encode inputs st, ∀ q ∈ out, q.1 ≠ S) := by
  refine ⟨?_, ?_, ?_, ?_⟩
  · intro now st addr m hm hc
    simp only [sendOne, hm, if_true, hc]
  · intro now st s p hnd hget
    have hmem : (s, p) ∈ st.reliablePackages := alGet_some_mem hget
    constructor
    · intro hc
      constructor
      · simp only [resendPhase, List.mem_map]
        refine ⟨(s, p), List.mem_filter.mpr ⟨hmem, by simpa using hc⟩, rfl⟩
      · rw [show (resendPhase now st).1.reliablePackages =
            st.reliablePackages.map (fun q =>
              if (300 : ℚ) < now - q.2.lastSend then (q.1, { q.2 with lastSend := now })
              else q) from rfl]
        rw [alGet_resend_map, hget]
        simp [hc]
    · intro hc
      constructor
      · intro q hq hqs
        obtain ⟨p', hp', hk, hc', hqe⟩ := resendPhase_out_origin now st hq
        have hp'mem : (p'.1, p'.2) ∈ st.reliablePackages := hp'
        rw [hqs] at hk
        rw [← hk] at hp'mem
        have := alGet_eq_of_mem_nodup hnd hp'mem
        rw [hget] at this
        have hpp : p'.2 = p := (Option.some.inj this).symm
        rw [hpp] at hc'
        exact hc hc'
      · rw [show (resendPhase now st).1.reliablePackages =
            st.reliablePackages.map (fun q =>
              if (300 : ℚ) < now - q.2.lastSend then (q.1, { q.2 with lastSend := now })
              else q) from rfl]
        rw [alGet_resend_map, hget]
        simp [hc]
  · intro st s
    constructor
    · rfl
    · intro hnp
      show { st with reliablePackages := alRemove st.reliablePackages s } = st
      rw [alRemove_of_not_mem hnp]
  · intro inputs
    induction inputs with
    | nil =>
        intro st S h1 h2 h3
        exact ⟨h2, by simp [netResendTrace]⟩
    | cons inp rest ih =>
        intro st S h1 h2 h3
        obtain ⟨⟨g1, g2, g3⟩, gout⟩ := netIter_preserves encode inp h1 h2 h3
        obtain ⟨f1, f2⟩ := ih _ S g1 g2 g3
        refine ⟨f1, ?_⟩
        intro out hout
        simp only [netResendTrace, List.mem_cons] at hout
        rcases hout with rfl | hout
        · intro q hq
          exact gout q hq
        · exact f2 out hout

/-- Witness for C1: a concrete pending entry of age 400 ms is resent with
its timestamp refreshed; a fresh reliable send stores the encoded bytes
under the counter; after a Confirm removed sequence 0 it never returns. -/
theorem c1_reliable_resend_protocol_witness :
    (((1 : Nat), (99 : Nat), (0 : Nat)) ∈
        (resendPhase 400 (NetThread.mk 2 [(1, ⟨99, 0, 0⟩)] : NetThread Nat Nat)).2 ∧
      alGet (resendPhase 400
          (NetThread.mk 2 [(1, ⟨99, 0, 0⟩)] : NetThread Nat Nat)).1.reliablePackages 1 =
        some ⟨99, 0, 400⟩) ∧
    sendOne (fun m : NetMsg Nat => m.reliable) 5 (NetThread.mk 3 [] : NetThread Nat Nat)
        0 ⟨7, 42⟩ =
      ({ reliableCounter := 4,
         reliablePackages := alInsert [] 3 ⟨3, 0, 5⟩ }, 3) ∧
    NotPending 0 (netRun (fun m : NetMsg Nat => m.reliable)
      [⟨1, [], [InboundMsg.confirm 0]⟩] (NetThread.mk 1 [] : NetThread Nat Nat)) := by
  refine ⟨((c1_reliable_resend_protocol (fun m : NetMsg Nat => m.reliable)).2.1 400
      (NetThread.mk 2 [(1, ⟨99, 0, 0⟩)]) 1 ⟨99, 0, 0⟩ (by decide) rfl).1
      (by norm_num), ?_, ?_⟩
  · exact (c1_reliable_resend_protocol (fun m : NetMsg Nat => m.reliable)).1 5
      (NetThread.mk 3 []) 0 ⟨7, 42⟩ (by decide) (by decide)
  · exact ((c1_reliable_resend_protocol (fun m : NetMsg Nat => m.reliable)).2.2.2
      [⟨1, [], [InboundMsg.confirm 0]⟩] (NetThread.mk 1 []) 0
      (fun p hp => by simp at hp) (fun p hp => by simp at hp) (by decide)).1

end BevyRoyal
